import Mathlib

/-!
Verification of the journal plugin's content-transformation pipeline.

Strings are modelled as `List Char`.  JavaScript regular-expression matching
is modelled by hand-written deterministic matchers.  For every pattern used by
the source, the regex components are separated by disjoint character classes
(digits/dot vs comma vs whitespace vs letters), so greedy matching with
backtracking coincides with committed maximal munch; each matcher below
follows its regex literally under that observation.  JavaScript numbers on
the decimal literals accepted by these patterns are modelled exactly by `ℚ`.
-/


/-- JS strings as lists of characters. -/
abbrev Str := List Char

/-- Convert a Lean string literal to the `List Char` model. -/
def str (s : String) : Str := s.data

/-- The characters matched by the regex class `\s` (ASCII range; the source
only ever meets ASCII whitespace). -/
def isWsCh (c : Char) : Bool :=
  c = ' ' || c = '\t' || c = '\n' || c = '\r' || c = '\x0b' || c = '\x0c'

/-- Maximal munch of `\d*`: returns (taken digits, rest). -/
def munchDigits : Str → Str × Str
  | [] => ([], [])
  | c :: t =>
    if c.isDigit then
      let (a, r) := munchDigits t
      (c :: a, r)
    else ([], c :: t)

/-- Maximal munch of `\s*`: returns (taken whitespace, rest). -/
def munchWs : Str → Str × Str
  | [] => ([], [])
  | c :: t =>
    if isWsCh c then
      let (a, r) := munchWs t
      (c :: a, r)
    else ([], c :: t)

/-- Matcher for `\d+\.?\d*` at the start of the input: returns the matched
text and the remainder.  Greedy = maximal munch: whatever follows this
sub-pattern in the source regexes is never a digit or a dot, so no
backtracking alternative can succeed. -/
def matchNumCore (s : Str) : Option (Str × Str) :=
  let (i, r) := munchDigits s
  if i = [] then none
  else
    match r with
    | '.' :: r2 =>
      let (f, r3) := munchDigits r2
      some (i ++ '.' :: f, r3)
    | _ => some (i, r)

/-- Matcher for `-?\d+\.?\d*` at the start of the input. -/
def matchNum (s : Str) : Option (Str × Str) :=
  match s with
  | '-' :: t =>
    match matchNumCore t with
    | some (m, r) => some ('-' :: m, r)
    | none => none
  | t => matchNumCore t

/-- Captured groups of a coordinate-pattern match: two numeric captures, or
(for the degree/hemisphere pattern) two numeric captures and two hemisphere
letters. -/
inductive Caps where
  | two (a b : Str)
  | four (a : Str) (h1 : Char) (b : Str) (h2 : Char)
deriving DecidableEq, Repr

/-- A regex match at the start of an input: the matched text (`match[0]`),
its captures and the remaining input. -/
structure MatchRes where
  raw : Str
  caps : Caps
  rest : Str
deriving DecidableEq, Repr

/-- Pattern 1 of `CoordinateParser.COORDINATE_PATTERNS`:
losslessly follows the regex `\[(-?\d+\.?\d*),\s*(-?\d+\.?\d*)\]`. -/
def matchBracket (s : Str) : Option MatchRes :=
  match s with
  | '[' :: t =>
    match matchNum t with
    | some (a, r1) =>
      match r1 with
      | ',' :: r2 =>
        let (w, r3) := munchWs r2
        match matchNum r3 with
        | some (b, r4) =>
          match r4 with
          | ']' :: r5 => some ⟨'[' :: (a ++ ',' :: (w ++ (b ++ [']']))), .two a b, r5⟩
          | _ => none
        | none => none
      | _ => none
    | none => none
  | _ => none

/-- Pattern 2: the regex `\((-?\d+\.?\d*),\s*(-?\d+\.?\d*)\)`. -/
def matchParen (s : Str) : Option MatchRes :=
  match s with
  | '(' :: t =>
    match matchNum t with
    | some (a, r1) =>
      match r1 with
      | ',' :: r2 =>
        let (w, r3) := munchWs r2
        match matchNum r3 with
        | some (b, r4) =>
          match r4 with
          | ')' :: r5 => some ⟨'(' :: (a ++ ',' :: (w ++ (b ++ [')']))), .two a b, r5⟩
          | _ => none
        | none => none
      | _ => none
    | none => none
  | _ => none

/-- Pattern 3: the regex `(-?\d+\.?\d*),\s*(-?\d+\.?\d*)`. -/
def matchBare (s : Str) : Option MatchRes :=
  match matchNum s with
  | some (a, r1) =>
    match r1 with
    | ',' :: r2 =>
      let (w, r3) := munchWs r2
      match matchNum r3 with
      | some (b, r4) => some ⟨a ++ ',' :: (w ++ b), .two a b, r4⟩
      | none => none
    | _ => none
  | none => none

/-- Hemisphere letters accepted by `[NS]` under the `i` flag. -/
def isNSCh (c : Char) : Bool := c = 'N' || c = 'S' || c = 'n' || c = 's'

/-- Hemisphere letters accepted by `[EW]` under the `i` flag. -/
def isEWCh (c : Char) : Bool := c = 'E' || c = 'W' || c = 'e' || c = 'w'

/-- Pattern 4: the regex
`(\d+\.?\d*)[°]?\s*([NS])\s*,?\s*(\d+\.?\d*)[°]?\s*([EW])` with flag `i`. -/
def matchDegree (s : Str) : Option MatchRes :=
  match matchNumCore s with
  | some (a, r1) =>
    let (d1, r2) := match r1 with
      | '°' :: t => (['°'], t)
      | t => (([] : Str), t)
    let (w1, r3) := munchWs r2
    match r3 with
    | c1 :: r4 =>
      if isNSCh c1 then
        let (w2, r5) := munchWs r4
        let (cm, r6) := match r5 with
          | ',' :: t => ([','], t)
          | t => (([] : Str), t)
        let (w3, r7) := munchWs r6
        match matchNumCore r7 with
        | some (b, r8) =>
          let (d2, r9) := match r8 with
            | '°' :: t => (['°'], t)
            | t => (([] : Str), t)
          let (w4, r10) := munchWs r9
          match r10 with
          | c2 :: r11 =>
            if isEWCh c2 then
              some ⟨a ++ (d1 ++ (w1 ++ (c1 :: (w2 ++ (cm ++ (w3 ++ (b ++ (d2 ++ (w4 ++ [c2])))))))))
                   , .four a c1 b c2, r11⟩
            else none
          | [] => none
        | none => none
      else none
    | [] => none
  | none => none

/-- Case-insensitive character comparison (the regex `i` flag). -/
def ciCh (c d : Char) : Bool := c.toLower = d.toLower

/-- Pattern 5: the regex `GPS:\s*(-?\d+\.?\d*),\s*(-?\d+\.?\d*)` with flag `i`. -/
def matchGps (s : Str) : Option MatchRes :=
  match s with
  | c1 :: c2 :: c3 :: c4 :: t =>
    if ciCh c1 'G' && ciCh c2 'P' && ciCh c3 'S' && c4 = ':' then
      let (w0, r0) := munchWs t
      match matchNum r0 with
      | some (a, r1) =>
        match r1 with
        | ',' :: r2 =>
          let (w, r3) := munchWs r2
          match matchNum r3 with
          | some (b, r4) =>
            some ⟨c1 :: c2 :: c3 :: c4 :: (w0 ++ (a ++ ',' :: (w ++ b))), .two a b, r4⟩
          | none => none
        | _ => none
      | none => none
    else none
  | _ => none

/-- Pattern 6: the regex `Location:\s*(-?\d+\.?\d*),\s*(-?\d+\.?\d*)` with
flag `i`. -/
def matchLocation (s : Str) : Option MatchRes :=
  match s with
  | c1 :: c2 :: c3 :: c4 :: c5 :: c6 :: c7 :: c8 :: c9 :: t =>
    if ciCh c1 'L' && ciCh c2 'O' && ciCh c3 'C' && ciCh c4 'A' && ciCh c5 'T' &&
       ciCh c6 'I' && ciCh c7 'O' && ciCh c8 'N' && c9 = ':' then
      let (w0, r0) := munchWs t
      match matchNum r0 with
      | some (a, r1) =>
        match r1 with
        | ',' :: r2 =>
          let (w, r3) := munchWs r2
          match matchNum r3 with
          | some (b, r4) =>
            some ⟨c1 :: c2 :: c3 :: c4 :: c5 :: c6 :: c7 :: c8 :: c9 ::
                    (w0 ++ (a ++ ',' :: (w ++ b))), .two a b, r4⟩
          | none => none
        | _ => none
      | none => none
    else none
  | _ => none

/-- `regex.exec` driven global scan: repeatedly find the next match, emit it,
and continue right after it; on failure slide one character.  Fuel-driven so
that the definition evaluates by kernel reduction; `fuel = length` suffices
because every match of the patterns above is nonempty. -/
def scanAux (f : Str → Option MatchRes) : Nat → Str → List MatchRes
  | 0, _ => []
  | Nat.succ fuel, s =>
    match f s with
    | some res => res :: scanAux f fuel res.rest
    | none =>
      match s with
      | [] => []
      | _ :: t => scanAux f fuel t

/-- All non-overlapping matches of a pattern, left to right (the
`while ((match = regex.exec(content)) !== null)` loop). -/
def scanMatches (f : Str → Option MatchRes) (s : Str) : List MatchRes :=
  scanAux f s.length s

/-- Numeric value of a digit character. -/
def digitVal (c : Char) : Nat := c.toNat - 48

/-- Value of a digit string. -/
def digitsVal (s : Str) : Nat := s.foldl (fun a c => 10 * a + digitVal c) 0

/-- An exact decimal number: `man / 10 ^ exp`.  The decimal literals
accepted by the coordinate patterns denote such numbers; this represents
them without rounding (the spec's "within float rounding" caveat), using
only kernel-reducible integer arithmetic. -/
structure DecNum where
  man : Int
  exp : Nat
deriving DecidableEq, Repr

/-- `10 ^ n` over `Int`, by structural recursion so it kernel-reduces. -/
def pow10 : Nat → Int
  | 0 => 1
  | Nat.succ n => 10 * pow10 n

/-- The rational value of an exact decimal. -/
def DecNum.val (d : DecNum) : ℚ := (d.man : ℚ) / (10 : ℚ) ^ d.exp

/-- Negation of an exact decimal. -/
def DecNum.neg (d : DecNum) : DecNum := ⟨-d.man, d.exp⟩

/-- Numeric equality of two exact decimals (cross multiplication). -/
def DecNum.eqv (a b : DecNum) : Bool := a.man * pow10 b.exp = b.man * pow10 a.exp

/-- `parseFloat` on an unsigned literal of shape `\d+\.?\d*`. -/
def parseUnsigned (s : Str) : DecNum :=
  let (i, r) := munchDigits s
  match r with
  | '.' :: r2 =>
    let (f, _) := munchDigits r2
    ⟨(digitsVal i : Int) * pow10 f.length + (digitsVal f : Int), f.length⟩
  | _ => ⟨(digitsVal i : Int), 0⟩

/-- `parseFloat` on the literals captured by the coordinate patterns. -/
def parseNum (s : Str) : DecNum :=
  match s with
  | '-' :: t => (parseUnsigned t).neg
  | t => parseUnsigned t

/-- The `Coordinate` model type: numeric fields plus the exact matched raw
substring. -/
structure Coordinate where
  lat : DecNum
  lng : DecNum
  raw : Str
deriving DecidableEq, Repr

/-- `CoordinateParser.isValidCoordinate`:
`lat >= -90 && lat <= 90 && lng >= -180 && lng <= 180`, stated on the exact
decimals by cross multiplication with the positive denominator `10 ^ exp`. -/
def isValidCoordinate (lat lng : DecNum) : Bool :=
  decide (-90 * pow10 lat.exp ≤ lat.man) && decide (lat.man ≤ 90 * pow10 lat.exp) &&
  decide (-180 * pow10 lng.exp ≤ lng.man) && decide (lng.man ≤ 180 * pow10 lng.exp)

/-- Numeric fields computed from a match's captures, with the hemisphere
sign rule (`match[2] === 'S'` negates latitude, `match[4] === 'W'` negates
longitude, after upper-casing). -/
def coordOfCaps : Caps → DecNum × DecNum
  | .two a b => (parseNum a, parseNum b)
  | .four a h1 b h2 =>
    (if h1.toUpper = 'S' then (parseNum a).neg else parseNum a,
     if h2.toUpper = 'W' then (parseNum b).neg else parseNum b)

/-- The ordered pattern list `COORDINATE_PATTERNS`. -/
def coordinatePatterns : List (Str → Option MatchRes) :=
  [matchBracket, matchParen, matchBare, matchDegree, matchGps, matchLocation]

/-- All matches of all six patterns against the full content, in pattern
order then match order. -/
def allMatches (content : Str) : List MatchRes :=
  (coordinatePatterns.map (fun f => scanMatches f content)).flatten

/-- The body of the `extractCoordinates` loop: de-duplicate by exact raw
substring (`processedRaws`), drop out-of-range pairs, keep the rest in
order. -/
def dedupLoop : List MatchRes → List Str → List Coordinate
  | [], _ => []
  | m :: ms, seen =>
    if m.raw ∈ seen then dedupLoop ms seen
    else
      let p := coordOfCaps m.caps
      if isValidCoordinate p.1 p.2 then
        ⟨p.1, p.2, m.raw⟩ :: dedupLoop ms (m.raw :: seen)
      else
        dedupLoop ms (m.raw :: seen)

/-- `CoordinateParser.extractCoordinates`. -/
def extractCoordinates (content : Str) : List Coordinate :=
  dedupLoop (allMatches content) []

/-- `String.prototype.replace` with a global pattern and empty replacement:
remove every non-overlapping match, scanning left to right (replacements are
not rescanned). -/
def removeAux (f : Str → Option MatchRes) : Nat → Str → Str
  | 0, s => s
  | Nat.succ fuel, s =>
    match f s with
    | some res => removeAux f fuel res.rest
    | none =>
      match s with
      | [] => []
      | c :: t => c :: removeAux f fuel t

/-- Remove all matches of one pattern from a string. -/
def removeAllMatches (f : Str → Option MatchRes) (s : Str) : Str :=
  removeAux f s.length s

/-- `String.prototype.trim`. -/
def jsTrim (s : Str) : Str :=
  ((s.dropWhile isWsCh).reverse.dropWhile isWsCh).reverse

/-- Replace every match with a fixed replacement string (the replacement is
not rescanned). -/
def replaceAux (f : Str → Option MatchRes) (repl : Str) : Nat → Str → Str
  | 0, s => s
  | Nat.succ fuel, s =>
    match f s with
    | some res => repl ++ replaceAux f repl fuel res.rest
    | none =>
      match s with
      | [] => []
      | c :: t => c :: replaceAux f repl fuel t

/-- Matcher for the regex `\s+`. -/
def matchWsPlus (s : Str) : Option MatchRes :=
  match s with
  | c :: t =>
    if isWsCh c then
      let (w, r) := munchWs t
      some ⟨c :: w, .two [] [], r⟩
    else none
  | [] => none

/-- `content.replace(/\s+/g, ' ')`. -/
def collapseWs (s : Str) : Str := replaceAux matchWsPlus [' '] s.length s

/-- Split a whitespace run at its last newline: greedy `\s*` followed by
`\n` backtracks to the last `\n` of the run. -/
def splitLastNl : Str → Option (Str × Str)
  | [] => none
  | c :: t =>
    match splitLastNl t with
    | some (a, b) => some (c :: a, b)
    | none => if c = '\n' then some ([c], t) else none

/-- Matcher for the regex `\n\s*\n`: a newline, then greedy whitespace
backtracked so that the match ends at the last newline available. -/
def matchNlNl (s : Str) : Option MatchRes :=
  match s with
  | '\n' :: t =>
    let (w, r) := munchWs t
    match splitLastNl w with
    | some (a, b) => some ⟨'\n' :: a, .two [] [], b ++ r⟩
    | none => none
  | _ => none

/-- `content.replace(/\n\s*\n/g, '\n')`. -/
def collapseNlNl (s : Str) : Str := replaceAux matchNlNl ['\n'] s.length s

/-- `CoordinateParser.removeCoordinatesFromContent`: strip every pattern's
matches (trimming after each pattern), then collapse whitespace runs and
blank lines and trim. -/
def removeCoordinatesFromContent (content : Str) : Str :=
  let t := coordinatePatterns.foldl (fun acc f => jsTrim (removeAllMatches f acc)) content
  jsTrim (collapseNlNl (collapseWs t))

/-!  ## NoteProcessor: frontmatter removal and log-entry segmentation  -/

/-- Search the text after the opening frontmatter fence for the closing
fence: the lazy group `([\s\S]*?)` grows until the first position where
`\n---\s*\n` matches (with the greedy `\s*\n` backtracking to the last
newline of the whitespace run).  Returns the captured frontmatter text and
the body after the fence. -/
def fmSplit : Str → Option (Str × Str)
  | [] => none
  | c :: t =>
    match
      (match c, t with
       | '\n', '-' :: '-' :: '-' :: t2 =>
         let (w, r) := munchWs t2
         match splitLastNl w with
         | some (_, b) => some (b ++ r)
         | none => none
       | _, _ => none) with
    | some body => some ([], body)
    | none =>
      match fmSplit t with
      | some (cap, body) => some (c :: cap, body)
      | none => none

/-- The body part of `FileUtils.parseFrontmatter`, i.e. the regex
`^---\s*\n([\s\S]*?)\n---\s*\n([\s\S]*)$`: if it matches, the body is the
second group, otherwise the whole content. -/
def frontmatterBody (content : Str) : Str :=
  match content with
  | '-' :: '-' :: '-' :: t =>
    let (w, r) := munchWs t
    match splitLastNl w with
    | some (_, b) =>
      match fmSplit (b ++ r) with
      | some (_, body) => body
      | none => content
    | none => content
  | _ => content

/-- One segmented log entry: its cleaned content and the first coordinate
found on the line, if any. -/
structure DailyNoteEntry where
  content : Str
  coordinates : Option Coordinate
deriving DecidableEq, Repr

/-- `line.replace(/^[-*+]\s*/, '')`. -/
def stripBullet (s : Str) : Str :=
  match s with
  | c :: t => if c = '-' || c = '*' || c = '+' then (munchWs t).2 else s
  | [] => []

/-- `line.replace(/^\d+\.\s*'/, '')` (numbered-list marker). -/
def stripNumbered (s : Str) : Str :=
  let (ds, r) := munchDigits s
  if ds = [] then s
  else
    match r with
    | '.' :: t => (munchWs t).2
    | _ => s

/-- `line.replace(/^- \[[x\s]\]\s*/, '')` (checkbox marker). -/
def stripDashCheckbox (s : Str) : Str :=
  match s with
  | '-' :: ' ' :: '[' :: c :: ']' :: t =>
    if c = 'x' || isWsCh c then (munchWs t).2 else s
  | _ => s

/-- `line.replace(/^\[\s*\]\s*/, '')` (empty checkbox). -/
def stripEmptyCheckbox (s : Str) : Str :=
  match s with
  | '[' :: t =>
    let r := (munchWs t).2
    match r with
    | ']' :: t2 => (munchWs t2).2
    | _ => s
  | _ => s

/-- `line.replace(/^\[x\]\s*/, '')` (checked box). -/
def stripCheckedBox (s : Str) : Str :=
  match s with
  | '[' :: 'x' :: ']' :: t => (munchWs t).2
  | _ => s

/-- The per-line cleanup chain of `NoteProcessor.parseLogEntries`, applied
in source order, then `.trim()`. -/
def cleanLineOf (trimmed : Str) : Str :=
  jsTrim (stripCheckedBox (stripEmptyCheckbox (stripDashCheckbox
    (stripNumbered (stripBullet trimmed)))))

/-- `NoteProcessor.parseLogEntries`. -/
def parseLogEntries (content : Str) : List DailyNoteEntry :=
  let body := frontmatterBody content
  let lines := body.splitOn '\n'
  lines.filterMap fun line =>
    let trimmed := jsTrim line
    if trimmed = [] then none
    else if trimmed.head? = some '#' then none
    else if (str "---").isPrefixOf trimmed then none
    else if (str "<!--").isPrefixOf trimmed then none
    else if trimmed.length < 5 then none
    else
      let cleanLine := cleanLineOf trimmed
      if cleanLine.length < 5 then none
      else
        let lineCoordinates := extractCoordinates cleanLine
        let cleanContent := removeCoordinatesFromContent cleanLine
        if (jsTrim cleanContent).length > 0 then
          some ⟨jsTrim cleanContent, lineCoordinates.head?⟩
        else none

/-- A parsed daily note. -/
structure DailyNote where
  file : Str
  date : Str
  entries : List DailyNoteEntry
  coordinates : List Coordinate
deriving DecidableEq, Repr

/-- `NoteProcessor.parseDailyNote`: entries are segmented from the body,
while the note-level coordinate list is extracted from the whole raw
content.  (The file path and the already-formatted date string are passed
through.) -/
def parseDailyNote (file date content : Str) : DailyNote :=
  ⟨file, date, parseLogEntries content, extractCoordinates content⟩

/-!  ## AIService: sentiment-tag extraction  -/

/-- The closed sentiment enumeration. -/
inductive Sentiment where
  | veryHappy | happy | neutral | sad | verySad
deriving DecidableEq, Repr

/-- Case-insensitive string equality (`a.toLowerCase() === b.toLowerCase()`
for the ASCII strings involved). -/
def ciEq : Str → Str → Bool
  | [], [] => true
  | a :: s, b :: t => ciCh a b && ciEq s t
  | _, _ => false

/-- The regex `^SENTIMENT:\s*(Very Happy|Happy|Neutral|Sad|Very Sad)$` with
flag `i`, applied to a whole line; returns the captured label text in its
original casing. -/
def matchSentLine (l : Str) : Option Str :=
  if ciEq (l.take 10) (str "SENTIMENT:") then
    let r := (munchWs (l.drop 10)).2
    if ciEq r (str "Very Happy") || ciEq r (str "Happy") || ciEq r (str "Neutral") ||
       ciEq r (str "Sad") || ciEq r (str "Very Sad") then some r
    else none
  else none

/-- `validSentiments.find(s => s.toLowerCase() === parsed.toLowerCase())`. -/
def canonFind (lab : Str) : Option Sentiment :=
  if ciEq (str "Very Happy") lab then some .veryHappy
  else if ciEq (str "Happy") lab then some .happy
  else if ciEq (str "Neutral") lab then some .neutral
  else if ciEq (str "Sad") lab then some .sad
  else if ciEq (str "Very Sad") lab then some .verySad
  else none

/-- The backward scan of `parseSentimentFromResponse`: the source iterates
`i` from the last line down to 0 and breaks at the first line whose trimmed
text matches the sentiment regex with a recognised label.  Structurally:
a match in the later lines takes precedence; otherwise the head line is
examined.  Returns the index of the matched line and the canonical
sentiment. -/
def bottomSentMatch : List Str → Option (Nat × Sentiment)
  | [] => none
  | l :: ls =>
    match bottomSentMatch ls with
    | some (j, s) => some (j + 1, s)
    | none =>
      match matchSentLine (jsTrim l) with
      | some lab =>
        match canonFind (jsTrim lab) with
        | some s => some (0, s)
        | none => none
      | none => none

/-- Result of sentiment extraction. -/
structure SentimentResult where
  content : Str
  sentiment : Sentiment
deriving DecidableEq, Repr

/-- `AIService.parseSentimentFromResponse`. -/
def parseSentimentFromResponse (response : Str) : SentimentResult :=
  let t := jsTrim response
  let lines := t.splitOn '\n'
  match bottomSentMatch lines with
  | some (i, s) => ⟨jsTrim (List.intercalate ['\n'] (lines.take i)), s⟩
  | none => ⟨t, .neutral⟩

/-!  ## DateUtils: token substitution and filename sanitisation  -/

/-- Decimal rendering of a natural number (`Number.prototype.toString`),
fuel-driven so it evaluates by kernel reduction. -/
def natStrAux : Nat → Nat → Str → Str
  | 0, _, acc => acc
  | Nat.succ fuel, n, acc =>
    let d := Char.ofNat (48 + n % 10)
    if n < 10 then d :: acc else natStrAux fuel (n / 10) (d :: acc)

/-- Decimal rendering of a natural number. -/
def natStr (n : Nat) : Str := natStrAux (n + 1) n []

/-- `padStart(2, '0')`. -/
def padStart2 (s : Str) : Str :=
  if 2 ≤ s.length then s else List.replicate (2 - s.length) '0' ++ s

/-- A date's local calendar fields as read off a JS `Date`:
`getFullYear`, `getMonth() + 1`, `getDate`, `getHours`, `getMinutes`,
`getSeconds`, `getDay`. -/
structure DateT where
  year : Nat
  month : Nat
  day : Nat
  hours : Nat
  minutes : Nat
  seconds : Nat
  dow : Nat
deriving DecidableEq, Repr

/-- `monthNames[month - 1]` (out-of-range indexing yields the string JS
prints for `undefined`). -/
def monthName (month : Nat) : Str :=
  ([str "January", str "February", str "March", str "April", str "May", str "June",
    str "July", str "August", str "September", str "October", str "November",
    str "December"].getD (month - 1) (str "undefined"))

/-- `monthNamesShort[month - 1]`. -/
def monthNameShort (month : Nat) : Str :=
  ([str "Jan", str "Feb", str "Mar", str "Apr", str "May", str "Jun", str "Jul",
    str "Aug", str "Sep", str "Oct", str "Nov", str "Dec"].getD (month - 1)
    (str "undefined"))

/-- `dayNames[date.getDay()]`. -/
def dayName (dow : Nat) : Str :=
  ([str "Sunday", str "Monday", str "Tuesday", str "Wednesday", str "Thursday",
    str "Friday", str "Saturday"].getD dow (str "undefined"))

/-- `dayNamesShort[date.getDay()]`. -/
def dayNameShort (dow : Nat) : Str :=
  ([str "Sun", str "Mon", str "Tue", str "Wed", str "Thu", str "Fri",
    str "Sat"].getD dow (str "undefined"))

/-- `hours % 12 || 12`. -/
def hours12 (h : Nat) : Nat := if h % 12 = 0 then 12 else h % 12

/-- The token-replacement table of `DateUtils.generateFilename`, already in
application order: the source sorts the insertion-ordered keys by descending
length with a stable sort, giving
YYYY, MMMM, dddd, MMM, ddd, YY, MM, DD, HH, hh, mm, ss, M, D, H, h. -/
def tokenReplacements (d : DateT) : List (Str × Str) :=
  [ (str "YYYY", natStr d.year),
    (str "MMMM", monthName d.month),
    (str "dddd", dayName d.dow),
    (str "MMM", monthNameShort d.month),
    (str "ddd", dayNameShort d.dow),
    (str "YY", (natStr d.year).drop ((natStr d.year).length - 2)),
    (str "MM", padStart2 (natStr d.month)),
    (str "DD", padStart2 (natStr d.day)),
    (str "HH", padStart2 (natStr d.hours)),
    (str "hh", padStart2 (natStr (hours12 d.hours))),
    (str "mm", padStart2 (natStr d.minutes)),
    (str "ss", padStart2 (natStr d.seconds)),
    (str "M", natStr d.month),
    (str "D", natStr d.day),
    (str "H", natStr d.hours),
    (str "h", natStr (hours12 d.hours)) ]

/-- `result.replace(new RegExp(token, 'g'), replacement)` for a literal
token: replace all non-overlapping occurrences left to right; replacements
are not rescanned. -/
def strReplaceAux (pat repl : Str) : Nat → Str → Str
  | 0, s => s
  | Nat.succ fuel, s =>
    if pat.isPrefixOf s then repl ++ strReplaceAux pat repl fuel (s.drop pat.length)
    else
      match s with
      | [] => []
      | c :: t => c :: strReplaceAux pat repl fuel t

/-- Replace all occurrences of a literal nonempty token.  (The outer match
keeps symbolic inputs from being unfolded: the fuel is only computed once
the subject is a concrete list.) -/
def strReplaceAll (pat repl s : Str) : Str :=
  match s with
  | [] => []
  | c :: t => strReplaceAux pat repl (c :: t).length (c :: t)

/-- The substitution phase of `DateUtils.generateFilename`. -/
def substituteTokens (d : DateT) (template : Str) : Str :=
  (tokenReplacements d).foldl (fun acc pr => strReplaceAll pr.1 pr.2 acc) template

/-- The characters of the regex class `[<>:"/\\|?*]`. -/
def illegalCh (c : Char) : Bool :=
  c = '<' || c = '>' || c = ':' || c = '"' || c = '/' || c = '\\' ||
  c = '|' || c = '?' || c = '*'

/-- `filename.replace(/[<>:"\/\\|?*]/g, '-')`: a single-character class, so
a character-wise map. -/
def illegalToDash (s : Str) : Str := s.map (fun c => if illegalCh c then '-' else c)

/-- `filename.replace(/^\.+/, '')`. -/
def stripLeadingDots (s : Str) : Str := s.dropWhile (fun c => c = '.')

/-- Length of the trailing run of dots. -/
def trailingDots (s : Str) : Nat := (s.reverse.takeWhile (fun c => c = '.')).length

/-- `filename.replace(/\.+$/, '.md')`: only a trailing run of dots is
rewritten; a name with no trailing dot is left as it is. -/
def dotsToMd (s : Str) : Str :=
  let k := trailingDots s
  if k = 0 then s else s.take (s.length - k) ++ str ".md"

/-- `DateUtils.sanitizeFilename` (the logger.ts `DateUtils`). -/
def sanitizeFilename (s : Str) : Str :=
  jsTrim (dotsToMd (stripLeadingDots (collapseWs (illegalToDash s))))

/-- `DateUtils.generateFilename`: sequential token substitution followed by
sanitisation. -/
def generateFilename (d : DateT) (template : Str) : Str :=
  sanitizeFilename (substituteTokens d template)

/-!  ## AIService: shared HTTP retry/backoff layer  -/

/-- Outcome of one `fetch` attempt: a successful response body, a
non-success HTTP status, or a thrown network error. -/
inductive FetchOutcome where
  | ok (body : Str)
  | httpError (status : Nat) (statusText : Str)
  | networkError (msg : Str)
deriving DecidableEq, Repr

/-- `Math.min(1000 * Math.pow(2, attempt - 1), 10000)`. -/
def backoffDelay (attempt : Nat) : Nat := min (1000 * 2 ^ (attempt - 1)) 10000

/-- Whether an attempt failed (non-success status or network failure). -/
def fetchFailed : FetchOutcome → Bool
  | .ok _ => false
  | .httpError _ _ => true
  | .networkError _ => true

/-- The terminal error surfaced for a failing final attempt: the `HTTP
status: statusText` message, or the network error itself. -/
def terminalError : FetchOutcome → Str
  | .ok _ => []
  | .httpError s t => str "HTTP " ++ natStr s ++ str ": " ++ t
  | .networkError m => m

/-- The retry loop of `AIService.makeHttpRequest`.  `fuel` counts the
attempts still allowed (`retries - attempt + 1`), so the source's loop bound
`attempt <= retries` is `fuel > 0` and `attempt === retries` is `fuel = 1`.
Returns the result together with the list of back-off delays slept, in
order. -/
def httpLoop (fetch : Nat → FetchOutcome) (retries : Nat) :
    Nat → Nat → List Nat → Except Str Str × List Nat
  | 0, _, delays => (.error (str "All retry attempts failed"), delays)
  | Nat.succ fuel, attempt, delays =>
    match fetch attempt with
    | .ok b => (.ok b, delays)
    | .httpError s t =>
      if attempt = retries then (.error (terminalError (.httpError s t)), delays)
      else httpLoop fetch retries fuel (attempt + 1) (delays ++ [backoffDelay attempt])
    | .networkError m =>
      if attempt = retries then (.error m, delays)
      else httpLoop fetch retries fuel (attempt + 1) (delays ++ [backoffDelay attempt])

/-- `AIService.makeHttpRequest` with its retry budget (the source default is
3); attempts are numbered from 1. -/
def makeHttpRequest (fetch : Nat → FetchOutcome) (retries : Nat) :
    Except Str Str × List Nat :=
  httpLoop fetch retries retries 1 []

/-- The source's default retry budget. -/
def defaultRetries : Nat := 3

/-- Substring test (`String.prototype.includes`). -/
def hasSub (pat : Str) : Str → Bool
  | [] => pat.isPrefixOf []
  | c :: t => pat.isPrefixOf (c :: t) || hasSub pat t

/-- `AIService.handleApiError`: cosmetic classification of an error message
into a user-facing message for the given provider display name. -/
def handleApiError (displayName msg : Str) : Str :=
  if hasSub (str "timeout") msg then
    displayName ++ str " request timed out. Please try again."
  else if hasSub (str "401") msg || hasSub (str "403") msg then
    displayName ++ str " authentication failed. Please check your API key."
  else if hasSub (str "429") msg then
    displayName ++ str " rate limit exceeded. Please wait before trying again."
  else if hasSub (str "500") msg || hasSub (str "502") msg ||
          hasSub (str "503") msg then
    displayName ++ str " server error. Please try again later."
  else displayName ++ str " error: " ++ msg

/-!  ## Scheduler: single-flight orchestration and per-note error isolation -/

/-- The result record returned by `Scheduler.processNotes`.  Wall-clock
durations are not modelled; the `duration` field is 0 except where the
source itself returns a literal 0. -/
structure ProcessingResult where
  success : Bool
  processed : Nat
  errors : List Str
  duration : Nat
deriving DecidableEq, Repr

/-- The scheduler state touched by a processing cycle. -/
structure SchedState where
  isProcessing : Bool
  lastProcessingTime : Option Nat
deriving DecidableEq, Repr

/-- Instrumentation events recording which collaborators an invocation
touched. -/
inductive SchedEv where
  | enumerate
  | aiCall (file : Str)
  | write (file : Str)
deriving DecidableEq, Repr

/-- The collaborators of a processing cycle: note enumeration (which can
throw), AI-service construction (which can throw for an unsupported
provider), the per-note AI call and the per-note journal write. -/
structure SchedEnv where
  findNotes : Except Str (List DailyNote)
  createAI : Except Str Unit
  aiProcess : DailyNote → Except Str Str
  createEntry : DailyNote → Str → Except Str Unit
  now : Nat

/-- `Scheduler.prepareContentForAI`. -/
def prepareContentForAI (n : DailyNote) : Str :=
  if n.entries = [] then []
  else jsTrim (List.intercalate ['\n'] (n.entries.map (fun e => e.content)))

/-- The per-note error string recorded in the batch error list. -/
def perNoteError (file msg : Str) : Str :=
  str "Failed to process " ++ file ++ str ": " ++ msg

/-- The per-note loop of `Scheduler.processNotes`: notes with empty prepared
content are skipped silently; a failing AI call or journal write is caught
individually and recorded; successes bump the processed count.  Returns
(processed count, error list, events). -/
def processNotesLoop (env : SchedEnv) : List DailyNote → Nat × List Str × List SchedEv
  | [] => (0, [], [])
  | n :: ns =>
    if jsTrim (prepareContentForAI n) = [] then processNotesLoop env ns
    else
      match env.aiProcess n with
      | .error e =>
        let r := processNotesLoop env ns
        (r.1, perNoteError n.file e :: r.2.1, .aiCall n.file :: r.2.2)
      | .ok content =>
        match env.createEntry n content with
        | .error e =>
          let r := processNotesLoop env ns
          (r.1, perNoteError n.file e :: r.2.1, .aiCall n.file :: r.2.2)
        | .ok _ =>
          let r := processNotesLoop env ns
          (r.1 + 1, r.2.1, .aiCall n.file :: .write n.file :: r.2.2)

/-- The result returned immediately when a cycle is already in flight. -/
def busyResult : ProcessingResult :=
  ⟨false, 0, [str "Processing already in progress"], 0⟩

/-- `Scheduler.processNotes`: the single-flight guard, the outer
try/catch/finally, and the per-note loop.  Returns the result, the state
after the call, and the instrumentation events. -/
def processNotes (st : SchedState) (env : SchedEnv) :
    ProcessingResult × SchedState × List SchedEv :=
  if st.isProcessing then (busyResult, st, [])
  else
    match env.findNotes with
    | .error e =>
      (⟨false, 0, [str "Processing cycle failed: " ++ e], 0⟩,
       ⟨false, st.lastProcessingTime⟩, [.enumerate])
    | .ok notes =>
      if notes = [] then
        (⟨true, 0, [], 0⟩, ⟨false, st.lastProcessingTime⟩, [.enumerate])
      else
        match env.createAI with
        | .error e =>
          (⟨false, 0, [str "Processing cycle failed: " ++ e], 0⟩,
           ⟨false, st.lastProcessingTime⟩, [.enumerate])
        | .ok _ =>
          let r := processNotesLoop env notes
          (⟨decide (r.2.1 = []), r.1, r.2.1, 0⟩, ⟨false, some env.now⟩,
           .enumerate :: r.2.2)

/-!  ## C8: per-note error isolation  -/

/-- The outcome of the per-note body (AI call then journal write), as a
single `Except`. -/
def perNoteOutcome (env : SchedEnv) (n : DailyNote) : Except Str Unit :=
  match env.aiProcess n with
  | .error e => .error e
  | .ok content => env.createEntry n content

/-- The message of a failed per-note outcome. -/
def perNoteFailMsg : Except Str Unit → Str
  | .error e => e
  | .ok _ => []

/-- Whether a per-note outcome succeeded. -/
def exceptOk : Except Str Unit → Bool
  | .ok _ => true
  | .error _ => false

/-!  ## C3: sanitisation in `generateFilename`  -/

/-- Adjacent characters in a sanitised name are never both whitespace. -/
def wsPair (a b : Char) : Prop := isWsCh a = false ∨ isWsCh b = false

/-!  ## C1: the six textual coordinate shapes  -/

/-- A decimal literal of the shape `-?\d+\.?\d*`. -/
structure NumLit where
  neg : Bool
  ip : Str
  hasDot : Bool
  frac : Str
deriving DecidableEq, Repr

/-- Well-formedness: nonempty integer digits, digit-only parts, and a
fractional part only in the presence of the dot. -/
def NumLit.wf (n : NumLit) : Prop :=
  n.ip ≠ [] ∧ (∀ c ∈ n.ip, c.isDigit = true) ∧ (∀ c ∈ n.frac, c.isDigit = true) ∧
  (n.hasDot = false → n.frac = [])

/-- The unsigned text of the literal. -/
def NumLit.core (n : NumLit) : Str := n.ip ++ (if n.hasDot then '.' :: n.frac else [])

/-- The full text of the literal. -/
def NumLit.render (n : NumLit) : Str := (if n.neg then ['-'] else []) ++ n.core

/-- The magnitude the literal denotes. -/
def NumLit.mag (n : NumLit) : ℚ :=
  (digitsVal n.ip : ℚ) + (digitsVal n.frac : ℚ) / (10 : ℚ) ^ n.frac.length

/-- The signed value the literal denotes. -/
def NumLit.value (n : NumLit) : ℚ := if n.neg then -n.mag else n.mag

/-- The bare shape `lat, lng`. -/
def bareInput (a b : NumLit) : Str := a.render ++ ',' :: ' ' :: b.render

/-- The bracketed shape `[lat, lng]`. -/
def bracketInput (a b : NumLit) : Str := '[' :: (bareInput a b ++ [']'])

/-- The parenthesized shape `(lat, lng)`. -/
def parenInput (a b : NumLit) : Str := '(' :: (bareInput a b ++ [')'])

/-- The `GPS: lat, lng` shape. -/
def gpsInput (a b : NumLit) : Str := 'G' :: 'P' :: 'S' :: ':' :: ' ' :: bareInput a b

/-- The `Location: lat, lng` shape. -/
def locationInput (a b : NumLit) : Str :=
  'L' :: 'o' :: 'c' :: 'a' :: 't' :: 'i' :: 'o' :: 'n' :: ':' :: ' ' :: bareInput a b

/-- The degree/hemisphere shape `lat°H, lng°H`. -/
def degreeInput (a b : NumLit) (h1 h2 : Char) : Str :=
  a.core ++ '°' :: h1 :: ',' :: ' ' :: (b.core ++ '°' :: [h2])

/-- Latitude of a degree-shape match (the `'S'` hemisphere negates). -/
def degLat (a : NumLit) (h1 : Char) : DecNum :=
  if h1.toUpper = 'S' then (parseNum a.core).neg else parseNum a.core

/-- Longitude of a degree-shape match (the `'W'` hemisphere negates). -/
def degLng (b : NumLit) (h2 : Char) : DecNum :=
  if h2.toUpper = 'W' then (parseNum b.core).neg else parseNum b.core

/-- The continuation of the degree pattern after its leading number. -/
def degreeCont (a r1 : Str) : Option MatchRes :=
  let (d1, r2) := match r1 with
    | '°' :: t => (['°'], t)
    | t => (([] : Str), t)
  let (w1, r3) := munchWs r2
  match r3 with
  | c1 :: r4 =>
    if isNSCh c1 then
      let (w2, r5) := munchWs r4
      let (cm, r6) := match r5 with
        | ',' :: t => ([','], t)
        | t => (([] : Str), t)
      let (w3, r7) := munchWs r6
      match matchNumCore r7 with
      | some (b, r8) =>
        let (d2, r9) := match r8 with
          | '°' :: t => (['°'], t)
          | t => (([] : Str), t)
        let (w4, r10) := munchWs r9
        match r10 with
        | c2 :: r11 =>
          if isEWCh c2 then
            some ⟨a ++ (d1 ++ (w1 ++ (c1 :: (w2 ++ (cm ++ (w3 ++ (b ++ (d2 ++ (w4 ++ [c2])))))))))
                 , .four a c1 b c2, r11⟩
          else none
        | [] => none
      | none => none
    else none
  | [] => none

/-- The continuation of the bare pattern after its leading number. -/
def bareCont (a r1 : Str) : Option MatchRes :=
  match r1 with
  | ',' :: r2 =>
    let (w, r3) := munchWs r2
    match matchNum r3 with
    | some (b, r4) => some ⟨a ++ ',' :: (w ++ b), .two a b, r4⟩
    | none => none
  | _ => none

/-!  ## Theorems  -/

theorem strReplaceAll_eq (pat repl s : Str) :
    strReplaceAll pat repl s = strReplaceAux pat repl s.length s := by
  cases s with
  | nil => rfl
  | cons c t => rfl

/-!  ## Basic lemmas about munching and exact decimals  -/

theorem munchDigits_append (s : Str) : (munchDigits s).1 ++ (munchDigits s).2 = s := by
  induction s with
  | nil => rfl
  | cons c t ih =>
    by_cases h : c.isDigit
    · simp [munchDigits, h, ih]
    · simp [munchDigits, h]

theorem munchWs_append (s : Str) : (munchWs s).1 ++ (munchWs s).2 = s := by
  induction s with
  | nil => rfl
  | cons c t ih =>
    by_cases h : isWsCh c
    · simp [munchWs, h, ih]
    · simp [munchWs, h]

theorem munchDigits_of_digits (d r : Str) (hd : ∀ c ∈ d, c.isDigit = true)
    (hr : ∀ c t, r = c :: t → c.isDigit = false) : munchDigits (d ++ r) = (d, r) := by
  induction d with
  | nil =>
    cases r with
    | nil => rfl
    | cons c t => simp [munchDigits, hr c t rfl]
  | cons c d ih =>
    have hc : c.isDigit = true := hd c (by simp)
    have h2 := ih (fun x hx => hd x (by simp [hx]))
    simp [munchDigits, hc, h2]

theorem munchWs_of_ws (w r : Str) (hw : ∀ c ∈ w, isWsCh c = true)
    (hr : ∀ c t, r = c :: t → isWsCh c = false) : munchWs (w ++ r) = (w, r) := by
  induction w with
  | nil =>
    cases r with
    | nil => rfl
    | cons c t => simp [munchWs, hr c t rfl]
  | cons c w ih =>
    have hc : isWsCh c = true := hw c (by simp)
    have h2 := ih (fun x hx => hw x (by simp [hx]))
    simp [munchWs, hc, h2]

theorem munchDigits_fst_digits (s : Str) : ∀ c ∈ (munchDigits s).1, c.isDigit = true := by
  induction s with
  | nil => simp [munchDigits]
  | cons c t ih =>
    by_cases h : c.isDigit
    · simp only [munchDigits, h, if_true]
      intro x hx
      rcases List.mem_cons.mp hx with hx | hx
      · subst hx; exact h
      · exact ih x hx
    · simp [munchDigits, h]

theorem munchDigits_snd_head (s : Str) (c : Char) (t : Str)
    (h : (munchDigits s).2 = c :: t) : c.isDigit = false := by
  induction s with
  | nil => simp [munchDigits] at h
  | cons a s ih =>
    by_cases ha : a.isDigit
    · simp only [munchDigits, ha, if_true] at h
      exact ih h
    · simp only [munchDigits, ha] at h
      injection h with h1 h2
      subst h1
      simpa using ha

theorem munchWs_snd_head (s : Str) (c : Char) (t : Str)
    (h : (munchWs s).2 = c :: t) : isWsCh c = false := by
  induction s with
  | nil => simp [munchWs] at h
  | cons a s ih =>
    by_cases ha : isWsCh a
    · simp only [munchWs, ha, if_true] at h
      exact ih h
    · simp only [munchWs, ha] at h
      injection h with h1 h2
      subst h1
      simpa using ha

theorem pow10_pos (n : Nat) : (0 : Int) < pow10 n := by
  induction n with
  | zero => decide
  | succ n ih => rw [pow10]; positivity

theorem pow10_cast (n : Nat) : ((pow10 n : Int) : ℚ) = (10 : ℚ) ^ n := by
  induction n with
  | zero => simp [pow10]
  | succ n ih => rw [pow10]; push_cast [ih]; ring

theorem le_val_iff (a : Int) (d : DecNum) : (a : ℚ) ≤ d.val ↔ a * pow10 d.exp ≤ d.man := by
  rw [DecNum.val, le_div_iff₀ (by positivity : (0 : ℚ) < (10 : ℚ) ^ d.exp)]
  rw [show ((a : ℚ) * (10 : ℚ) ^ d.exp) = ((a * pow10 d.exp : Int) : ℚ) by push_cast [pow10_cast]; ring]
  exact_mod_cast Iff.rfl

theorem val_le_iff (a : Int) (d : DecNum) : d.val ≤ (a : ℚ) ↔ d.man ≤ a * pow10 d.exp := by
  rw [DecNum.val, div_le_iff₀ (by positivity : (0 : ℚ) < (10 : ℚ) ^ d.exp)]
  rw [show ((a : ℚ) * (10 : ℚ) ^ d.exp) = ((a * pow10 d.exp : Int) : ℚ) by push_cast [pow10_cast]; ring]
  exact_mod_cast Iff.rfl

/-- The source's range check holds exactly when the rational values of the
parsed pair lie in the valid latitude/longitude ranges. -/
theorem isValidCoordinate_iff_val (a b : DecNum) :
    isValidCoordinate a b = true ↔
      (-90 ≤ a.val ∧ a.val ≤ 90 ∧ -180 ≤ b.val ∧ b.val ≤ 180) := by
  have h1 := le_val_iff (-90) a
  have h2 := val_le_iff 90 a
  have h3 := le_val_iff (-180) b
  have h4 := val_le_iff 180 b
  push_cast at h1 h2 h3 h4
  simp only [isValidCoordinate, Bool.and_eq_true, decide_eq_true_eq]
  constructor
  · rintro ⟨⟨⟨p1, p2⟩, p3⟩, p4⟩
    exact ⟨h1.mpr p1, h2.mpr p2, h3.mpr p3, h4.mpr p4⟩
  · rintro ⟨p1, p2, p3, p4⟩
    exact ⟨⟨⟨h1.mp p1, h2.mp p2⟩, h3.mp p3⟩, h4.mp p4⟩

/-- Numeric equality of exact decimals coincides with equality of their
rational values. -/
theorem DecNum.eqv_iff_val (a b : DecNum) : a.eqv b = true ↔ a.val = b.val := by
  have ha : (0 : ℚ) < (10 : ℚ) ^ a.exp := by positivity
  have hb : (0 : ℚ) < (10 : ℚ) ^ b.exp := by positivity
  rw [DecNum.eqv, decide_eq_true_eq, DecNum.val, DecNum.val,
    div_eq_div_iff (by positivity) (by positivity)]
  rw [show ((a.man : ℚ) * (10 : ℚ) ^ b.exp) = ((a.man * pow10 b.exp : Int) : ℚ) by
        push_cast [pow10_cast]; ring,
      show ((b.man : ℚ) * (10 : ℚ) ^ a.exp) = ((b.man * pow10 a.exp : Int) : ℚ) by
        push_cast [pow10_cast]; ring]
  exact_mod_cast Iff.rfl

/-!  ## C9: every emitted coordinate is range-valid  -/

theorem mem_dedupLoop_valid (ms : List MatchRes) (seen : List Str) (c : Coordinate)
    (h : c ∈ dedupLoop ms seen) : isValidCoordinate c.lat c.lng = true := by
  induction ms generalizing seen with
  | nil => simp [dedupLoop] at h
  | cons m ms ih =>
    rw [dedupLoop] at h
    by_cases hm : m.raw ∈ seen
    · rw [if_pos hm] at h; exact ih _ h
    · rw [if_neg hm] at h
      by_cases hv : isValidCoordinate (coordOfCaps m.caps).1 (coordOfCaps m.caps).2 = true
      · rw [if_pos hv] at h
        rcases List.mem_cons.mp h with h | h
        · subst h; exact hv
        · exact ih _ h
      · rw [if_neg hv] at h; exact ih _ h

/-- C9: every Coordinate returned by `extractCoordinates` satisfies
`-90 ≤ lat ≤ 90` and `-180 ≤ lng ≤ 180`; parsing is total and only pushes
validated pairs, so a parsed pair outside those ranges is silently dropped —
no error is raised (the function always returns a plain list) and no
Coordinate is emitted for that match (any such Coordinate would violate this
invariant). -/
theorem c9_extract_in_range (content : Str) (c : Coordinate)
    (h : c ∈ extractCoordinates content) :
    -90 ≤ c.lat.val ∧ c.lat.val ≤ 90 ∧ -180 ≤ c.lng.val ∧ c.lng.val ≤ 180 :=
  (isValidCoordinate_iff_val c.lat c.lng).mp (mem_dedupLoop_valid _ _ _ h)

set_option maxHeartbeats 1000000 in
/-- Witness for C9 at a concrete input: the text also contains the
out-of-range pair `(95, 5)`, which is dropped. -/
theorem c9_extract_in_range_witness :
    (⟨⟨10, 0⟩, ⟨20, 0⟩, str "10, 20"⟩ : Coordinate) ∈
        extractCoordinates (str "[95, 5] then 10, 20") ∧
      extractCoordinates (str "[95, 5] then 10, 20") =
        [⟨⟨10, 0⟩, ⟨20, 0⟩, str "10, 20"⟩] ∧
      (-90 ≤ (DecNum.val ⟨10, 0⟩) ∧ DecNum.val ⟨10, 0⟩ ≤ 90 ∧
        -180 ≤ (DecNum.val ⟨20, 0⟩) ∧ DecNum.val ⟨20, 0⟩ ≤ 180) := by
  have he : extractCoordinates (str "[95, 5] then 10, 20") =
      [⟨⟨10, 0⟩, ⟨20, 0⟩, str "10, 20"⟩] := by decide
  have hm : (⟨⟨10, 0⟩, ⟨20, 0⟩, str "10, 20"⟩ : Coordinate) ∈
      extractCoordinates (str "[95, 5] then 10, 20") := by
    rw [he]; exact List.mem_singleton.mpr rfl
  exact ⟨hm, he, c9_extract_in_range (str "[95, 5] then 10, 20") _ hm⟩

/-!  ## C2: the note-level coordinate list is not a superset of the
per-entry coordinates  -/

set_option maxHeartbeats 1000000 in
/-- C2 fails on the code: in the note body `"xx 5,\n6, 7 hello"` the
note-level extraction matches `5,\n6` across the line break (the bare
pattern's `,\s*` spans newlines), giving the single note-level value
(5, 6), while the second line's entry carries the coordinate (6, 7).  The
entry coordinate's value appears nowhere in the note-level list. -/
theorem c2_superset_failure :
    (parseDailyNote (str "note.md") (str "2025-09-01") (str "xx 5,\n6, 7 hello")).entries =
        [⟨str "xx 5,", none⟩, ⟨str "hello", some ⟨⟨6, 0⟩, ⟨7, 0⟩, str "6, 7"⟩⟩] ∧
      (parseDailyNote (str "note.md") (str "2025-09-01") (str "xx 5,\n6, 7 hello")).coordinates =
        [⟨⟨5, 0⟩, ⟨6, 0⟩, str "5,\n6"⟩] ∧
      ∀ c ∈ (parseDailyNote (str "note.md") (str "2025-09-01")
              (str "xx 5,\n6, 7 hello")).coordinates,
        ¬(c.lat.eqv ⟨6, 0⟩ = true ∧ c.lng.eqv ⟨7, 0⟩ = true) := by
  refine ⟨by decide, by decide, by decide⟩

/-!  ## C4: `strip` can leave a matched raw substring in its output  -/

set_option maxHeartbeats 1000000 in
/-- C4 fails on the code: on `"1-3, 4.5, 2 and 1, 2"`, `extractCoordinates`
returns the raws `-3, 4.5` and `1, 2`; removing them glues the leading `1`
onto `, 2 and `, so `removeCoordinatesFromContent` returns `"1, 2 and"`,
which contains the extracted raw substring `1, 2`. -/
theorem c4_strip_failure :
    extractCoordinates (str "1-3, 4.5, 2 and 1, 2") =
        [⟨⟨-3, 0⟩, ⟨45, 1⟩, str "-3, 4.5"⟩, ⟨⟨1, 0⟩, ⟨2, 0⟩, str "1, 2"⟩] ∧
      removeCoordinatesFromContent (str "1-3, 4.5, 2 and 1, 2") = str "1, 2 and" ∧
      hasSub (str "1, 2") (removeCoordinatesFromContent (str "1-3, 4.5, 2 and 1, 2")) = true := by
  refine ⟨by decide, by decide, by decide⟩

/-!  ## Lemmas about decimal rendering and literal replacement  -/

theorem char_ofNat_digit (k : Nat) (h : k < 10) : (Char.ofNat (48 + k)).isDigit = true := by
  interval_cases k <;> decide

theorem natStrAux_digits (fuel : Nat) :
    ∀ (n : Nat) (acc : Str), (∀ c ∈ acc, c.isDigit = true) →
      ∀ c ∈ natStrAux fuel n acc, c.isDigit = true := by
  induction fuel with
  | zero => intro n acc h c hc; exact h c hc
  | succ fuel ih =>
    intro n acc h c hc
    rw [natStrAux] at hc
    have hd : (Char.ofNat (48 + n % 10)).isDigit = true :=
      char_ofNat_digit _ (Nat.mod_lt _ (by omega))
    by_cases hn : n < 10
    · rw [if_pos hn] at hc
      rcases List.mem_cons.mp hc with hc | hc
      · subst hc; exact hd
      · exact h c hc
    · rw [if_neg hn] at hc
      refine ih _ _ ?_ c hc
      intro x hx
      rcases List.mem_cons.mp hx with hx | hx
      · subst hx; exact hd
      · exact h x hx

theorem natStr_digits (n : Nat) : ∀ c ∈ natStr n, c.isDigit = true :=
  natStrAux_digits _ _ _ (by simp)

theorem natStrAux_ne_nil (fuel : Nat) :
    ∀ (n : Nat) (acc : Str), acc ≠ [] → natStrAux fuel n acc ≠ [] := by
  induction fuel with
  | zero => intro n acc h; exact h
  | succ fuel ih =>
    intro n acc h
    rw [natStrAux]
    by_cases hn : n < 10
    · rw [if_pos hn]; simp
    · rw [if_neg hn]; exact ih _ _ (by simp)

theorem natStr_ne_nil (n : Nat) : natStr n ≠ [] := by
  rw [natStr, natStrAux]
  by_cases hn : n < 10
  · rw [if_pos hn]; simp
  · rw [if_neg hn]; exact natStrAux_ne_nil _ _ _ (by simp)

theorem strReplaceAux_not_found (pat repl : Str) (fuel : Nat) (s : Str)
    (h : hasSub pat s = false) : strReplaceAux pat repl fuel s = s := by
  induction fuel generalizing s with
  | zero => rfl
  | succ fuel ih =>
    cases s with
    | nil =>
      rw [hasSub] at h
      rw [strReplaceAux, if_neg (by simp [h])]
    | cons c t =>
      rw [hasSub, Bool.or_eq_false_iff] at h
      rw [strReplaceAux, if_neg (by simp [h.1]), ih t h.2]

theorem strReplaceAll_not_found (pat repl s : Str) (h : hasSub pat s = false) :
    strReplaceAll pat repl s = s :=
  (strReplaceAll_eq pat repl s).trans (strReplaceAux_not_found pat repl s.length s h)

theorem hasSub_head_mem (c : Char) (p s : Str) (h : hasSub (c :: p) s = true) : c ∈ s := by
  induction s with
  | nil => simp [hasSub, List.isPrefixOf] at h
  | cons a t ih =>
    rw [hasSub, Bool.or_eq_true] at h
    rcases h with h | h
    · simp only [List.isPrefixOf, Bool.and_eq_true, beq_iff_eq] at h
      rw [h.1]; simp
    · exact List.mem_cons_of_mem _ (ih h)

theorem hasSub_false_of_not_mem (c : Char) (p s : Str) (h : c ∉ s) :
    hasSub (c :: p) s = false := by
  cases hs : hasSub (c :: p) s
  · rfl
  · exact absurd (hasSub_head_mem c p s hs) h

/-!  ## C10: token substitution order lets `D` rewrite inside `December`  -/

theorem digit_not_illegal (c : Char) (h : c.isDigit = true) : illegalCh c = false := by
  cases hc : illegalCh c
  · rfl
  · exfalso
    simp only [illegalCh, Bool.or_eq_true, decide_eq_true_eq] at hc
    rcases hc with ((((((((h1 | h1) | h1) | h1) | h1) | h1) | h1) | h1) | h1) <;>
      (subst h1; exact absurd h (by decide))

theorem digit_not_ws (c : Char) (h : c.isDigit = true) : isWsCh c = false := by
  cases hc : isWsCh c
  · rfl
  · exfalso
    simp only [isWsCh, Bool.or_eq_true, decide_eq_true_eq] at hc
    rcases hc with (((((h1 | h1) | h1) | h1) | h1) | h1) <;>
      (subst h1; exact absurd h (by decide))

theorem replaceWsAux_id (fuel : Nat) :
    ∀ s : Str, (∀ c ∈ s, isWsCh c = false) →
      replaceAux matchWsPlus [' '] fuel s = s := by
  induction fuel with
  | zero => intro s _; rfl
  | succ fuel ih =>
    intro s h
    cases s with
    | nil => rfl
    | cons c t =>
      have hc : isWsCh c = false := h c (by simp)
      rw [replaceAux]
      simp only [matchWsPlus, hc, Bool.false_eq_true, if_false]
      rw [ih t (fun x hx => h x (by simp [hx]))]

theorem collapseWs_eq_self (s : Str) (h : ∀ c ∈ s, isWsCh c = false) :
    collapseWs s = s :=
  replaceWsAux_id _ s h

theorem illegalToDash_eq_self (s : Str) (h : ∀ c ∈ s, illegalCh c = false) :
    illegalToDash s = s := by
  rw [illegalToDash]
  rw [List.map_congr_left (fun c hc => by simp [h c hc] : ∀ c ∈ s, (if illegalCh c then '-' else c) = c)]
  exact List.map_id s

/-- For a string of the shape `decimal digits ++ "ecember"`, sanitisation is
the identity. -/
theorem sanitize_digits_ecember (n : Nat) :
    sanitizeFilename (natStr n ++ str "ecember") = natStr n ++ str "ecember" := by
  set X := natStr n ++ str "ecember" with hX
  have hchars : ∀ c ∈ X, c.isDigit = true ∨ c ∈ str "ecember" := by
    intro c hc
    rcases List.mem_append.mp hc with hc | hc
    · exact Or.inl (natStr_digits n c hc)
    · exact Or.inr hc
  have hnotIll : ∀ c ∈ X, illegalCh c = false := by
    intro c hc
    rcases hchars c hc with h | h
    · exact digit_not_illegal c h
    · exact (by decide : ∀ x ∈ str "ecember", illegalCh x = false) c h
  have hnotWs : ∀ c ∈ X, isWsCh c = false := by
    intro c hc
    rcases hchars c hc with h | h
    · exact digit_not_ws c h
    · exact (by decide : ∀ x ∈ str "ecember", isWsCh x = false) c h
  obtain ⟨c, t, hct⟩ := List.exists_cons_of_ne_nil (natStr_ne_nil n)
  have hcd : c.isDigit = true := natStr_digits n c (by rw [hct]; simp)
  have hXc : X = c :: (t ++ str "ecember") := by rw [hX, hct, List.cons_append]
  rw [sanitizeFilename, illegalToDash_eq_self _ hnotIll, collapseWs_eq_self _ hnotWs]
  have hcdot : ¬(decide (c = '.') = true) := by
    intro he
    have hc2 : c = '.' := of_decide_eq_true he
    rw [hc2] at hcd
    exact absurd hcd (by decide)
  have h1 : stripLeadingDots X = X := by
    rw [hXc, stripLeadingDots, List.dropWhile_cons, if_neg hcdot, ← List.cons_append, ← hct]
  rw [h1]
  have hrev : X.reverse = 'r' :: (str "ebmece" ++ (natStr n).reverse) := by
    rw [hX, List.reverse_append]
    rfl
  have h2 : trailingDots X = 0 := by
    rw [trailingDots, hrev, List.takeWhile_cons, if_neg (by decide)]
    rfl
  rw [dotsToMd, h2, if_pos rfl]
  have h3 : List.dropWhile isWsCh X = X := by
    rw [hXc, List.dropWhile_cons, if_neg (by simp [digit_not_ws c hcd]), ← List.cons_append,
      ← hct]
  rw [jsTrim, h3, hrev, List.dropWhile_cons, if_neg (by decide), ← hrev,
    List.reverse_reverse]

theorem strReplaceAux_step (pat repl : Str) (fuel : Nat) (s : Str)
    (h : pat.isPrefixOf s = true) :
    strReplaceAux pat repl (Nat.succ fuel) s =
      repl ++ strReplaceAux pat repl fuel (s.drop pat.length) := by
  simp [strReplaceAux, h]

/-- Substituting the `D` token into `December` replaces its first letter. -/
theorem strReplaceAll_D_December (r : Str) :
    strReplaceAll (str "D") r (str "December") = r ++ str "ecember" := by
  show strReplaceAux (str "D") r ((str "December").length) (str "December") = r ++ str "ecember"
  rw [show (str "December").length = Nat.succ 7 from rfl]
  rw [strReplaceAux_step _ _ _ _ (by decide)]
  rw [show (str "December").drop (str "D").length = str "ecember" from rfl]
  rw [strReplaceAux_not_found _ _ _ _ (by decide)]

/-- C10: `generateFilename` applies its token replacements sequentially
over the whole working string, so the one-letter `D` token substitutes
inside the text produced by the earlier `MMMM` substitution: for every date
in December (month = 12) the template `MMMM` first expands to `December`,
then `D` replaces the leading `D` with the day of month, so the output is
`<day>ecember` and no longer contains the literal month name. -/
theorem c10_month_name_mangled (d : DateT) (hm : d.month = 12) :
    generateFilename d (str "MMMM") = natStr d.day ++ str "ecember" ∧
      hasSub (str "December") (generateFilename d (str "MMMM")) = false := by
  have hD : 'D' ∉ natStr d.day ++ str "ecember" := by
    intro hmem
    rcases List.mem_append.mp hmem with h | h
    · exact absurd (natStr_digits d.day 'D' h) (by decide)
    · exact absurd h (by decide)
  have hH : 'H' ∉ natStr d.day ++ str "ecember" := by
    intro hmem
    rcases List.mem_append.mp hmem with h | h
    · exact absurd (natStr_digits d.day 'H' h) (by decide)
    · exact absurd h (by decide)
  have hh : 'h' ∉ natStr d.day ++ str "ecember" := by
    intro hmem
    rcases List.mem_append.mp hmem with h | h
    · exact absurd (natStr_digits d.day 'h' h) (by decide)
    · exact absurd h (by decide)
  have hsub : substituteTokens d (str "MMMM") = natStr d.day ++ str "ecember" := by
    simp only [substituteTokens, tokenReplacements, List.foldl_cons, List.foldl_nil]
    rw [hm]
    rw [strReplaceAll_not_found (str "YYYY") (natStr d.year) (str "MMMM") (by decide)]
    rw [show strReplaceAll (str "MMMM") (monthName 12) (str "MMMM") = str "December" from
      by decide]
    rw [strReplaceAll_not_found (str "dddd") (dayName d.dow) (str "December") (by decide)]
    rw [strReplaceAll_not_found (str "MMM") (monthNameShort 12) (str "December") (by decide)]
    rw [strReplaceAll_not_found (str "ddd") (dayNameShort d.dow) (str "December") (by decide)]
    rw [strReplaceAll_not_found (str "YY")
      (List.drop (List.length (natStr d.year) - 2) (natStr d.year)) (str "December") (by decide)]
    rw [strReplaceAll_not_found (str "MM") (padStart2 (natStr 12)) (str "December") (by decide)]
    rw [strReplaceAll_not_found (str "DD") (padStart2 (natStr d.day)) (str "December") (by decide)]
    rw [strReplaceAll_not_found (str "HH") (padStart2 (natStr d.hours)) (str "December")
      (by decide)]
    rw [strReplaceAll_not_found (str "hh") (padStart2 (natStr (hours12 d.hours)))
      (str "December") (by decide)]
    rw [strReplaceAll_not_found (str "mm") (padStart2 (natStr d.minutes)) (str "December")
      (by decide)]
    rw [strReplaceAll_not_found (str "ss") (padStart2 (natStr d.seconds)) (str "December")
      (by decide)]
    rw [strReplaceAll_not_found (str "M") (natStr 12) (str "December") (by decide)]
    rw [strReplaceAll_D_December (natStr d.day)]
    rw [strReplaceAll_not_found (str "H") (natStr d.hours) (natStr d.day ++ str "ecember")
      (hasSub_false_of_not_mem 'H' [] _ hH)]
    rw [strReplaceAll_not_found (str "h") (natStr (hours12 d.hours))
      (natStr d.day ++ str "ecember") (hasSub_false_of_not_mem 'h' [] _ hh)]
  constructor
  · rw [generateFilename, hsub, sanitize_digits_ecember]
  · rw [generateFilename, hsub, sanitize_digits_ecember]
    exact hasSub_false_of_not_mem _ _ _ hD

/-- Witness for C10 at December 25th. -/
theorem c10_month_name_mangled_witness :
    generateFilename ⟨2025, 12, 25, 0, 0, 0, 4⟩ (str "MMMM") = str "25ecember" ∧
      hasSub (str "December") (generateFilename ⟨2025, 12, 25, 0, 0, 0, 4⟩ (str "MMMM")) =
        false := by
  have h := c10_month_name_mangled ⟨2025, 12, 25, 0, 0, 0, 4⟩ rfl
  exact ⟨h.1.trans (by decide), h.2⟩

/-!  ## C6: HTTP retry/backoff policy  -/

theorem httpLoop_fail_step (fetch : Nat → FetchOutcome) (retries fuel attempt : Nat)
    (delays : List Nat) (hne : attempt ≠ retries) (hf : fetchFailed (fetch attempt) = true) :
    httpLoop fetch retries (Nat.succ fuel) attempt delays =
      httpLoop fetch retries fuel (attempt + 1) (delays ++ [backoffDelay attempt]) := by
  rw [httpLoop]
  rcases h : fetch attempt with b | ⟨s, t⟩ | m
  · rw [h] at hf; simp [fetchFailed] at hf
  · simp [hne]
  · simp [hne]

theorem httpLoop_ok (fetch : Nat → FetchOutcome) (retries fuel attempt : Nat)
    (delays : List Nat) (b : Str) (h : fetch attempt = .ok b) :
    httpLoop fetch retries (Nat.succ fuel) attempt delays = (.ok b, delays) := by
  rw [httpLoop, h]

theorem httpLoop_final_fail (fetch : Nat → FetchOutcome) (retries fuel : Nat)
    (delays : List Nat) (h : fetchFailed (fetch retries) = true) :
    httpLoop fetch retries (Nat.succ fuel) retries delays =
      (.error (terminalError (fetch retries)), delays) := by
  rw [httpLoop]
  rcases hf : fetch retries with b | ⟨s, t⟩ | m
  · rw [hf] at h; simp [fetchFailed] at h
  · simp [terminalError]
  · simp [terminalError]

/-- C6: with the default retry budget 3, a backend failing (non-success
status or network failure) on attempts 1 and 2 and succeeding on attempt 3
yields a successful result; failing on all three attempts surfaces the
final attempt's failure as the terminal error.  The waits slept before the
retries are `min(1000 * 2^(attempt-1), 10000)` ms, i.e. 1000 then 2000. -/
theorem c6_retry_backoff (fetch : Nat → FetchOutcome)
    (h1 : fetchFailed (fetch 1) = true) (h2 : fetchFailed (fetch 2) = true) :
    (∀ b, fetch 3 = .ok b →
        makeHttpRequest fetch defaultRetries = (.ok b, [1000, 2000])) ∧
      (fetchFailed (fetch 3) = true →
        makeHttpRequest fetch defaultRetries =
          (.error (terminalError (fetch 3)), [1000, 2000])) ∧
      [1000, 2000] = [backoffDelay 1, backoffDelay 2] ∧
      (∀ a, backoffDelay a = min (1000 * 2 ^ (a - 1)) 10000) := by
  have e1 : makeHttpRequest fetch defaultRetries =
      httpLoop fetch 3 2 2 [backoffDelay 1] := by
    rw [makeHttpRequest, defaultRetries]
    have := httpLoop_fail_step fetch 3 2 1 [] (by decide) h1
    simpa using this
  have e2 : httpLoop fetch 3 2 2 [backoffDelay 1] =
      httpLoop fetch 3 1 3 [backoffDelay 1, backoffDelay 2] := by
    have := httpLoop_fail_step fetch 3 1 2 [backoffDelay 1] (by decide) h2
    simpa using this
  have hbd : ([backoffDelay 1, backoffDelay 2] : List Nat) = [1000, 2000] := rfl
  refine ⟨?_, ?_, by decide, fun a => rfl⟩
  · intro b hb
    rw [e1, e2]
    have := httpLoop_ok fetch 3 0 3 [backoffDelay 1, backoffDelay 2] b hb
    rw [hbd] at this
    simpa using this
  · intro h3
    rw [e1, e2]
    have := httpLoop_final_fail fetch 3 0 [backoffDelay 1, backoffDelay 2] h3
    rw [hbd] at this
    simpa using this

/-- Witness for C6: a backend failing with HTTP 500 twice then succeeding,
and one failing with HTTP 503 on all three attempts. -/
theorem c6_retry_backoff_witness :
    makeHttpRequest (fun a => if a = 3 then .ok (str "yay") else .httpError 500 (str "ISE"))
        defaultRetries = (.ok (str "yay"), [1000, 2000]) ∧
      makeHttpRequest (fun _ => .httpError 503 (str "SU")) defaultRetries =
        (.error (str "HTTP 503: SU"), [1000, 2000]) := by
  constructor
  · exact (c6_retry_backoff
      (fun a => if a = 3 then .ok (str "yay") else .httpError 500 (str "ISE"))
      (by decide) (by decide)).1 (str "yay") (by decide)
  · have h := (c6_retry_backoff (fun _ => .httpError 503 (str "SU"))
      (by decide) (by decide)).2.1 (by decide)
    rw [h]
    rfl

/-!  ## C7: single-flight orchestration  -/

theorem processNotes_not_busy_state (st : SchedState) (env : SchedEnv)
    (h : st.isProcessing = false) : (processNotes st env).2.1.isProcessing = false := by
  rw [processNotes, if_neg (by simp [h])]
  rcases henv : env.findNotes with e | notes
  · rfl
  · by_cases hn : notes = []
    · simp [hn]
    · rcases hai : env.createAI with e | u
      · simp [hn]
      · simp [hn]

theorem processNotes_not_busy_events (st : SchedState) (env : SchedEnv)
    (h : st.isProcessing = false) : (processNotes st env).2.2 ≠ [] := by
  rw [processNotes, if_neg (by simp [h])]
  rcases henv : env.findNotes with e | notes
  · simp
  · by_cases hn : notes = []
    · simp [hn]
    · rcases hai : env.createAI with e | u
      · simp [hn]
      · simp [hn]

/-- C7: the orchestrator is single-flight.  A `processNotes` call made
while a cycle is in flight (`isProcessing = true`) immediately returns
`success = false, processed = 0, duration = 0` with the busy message,
leaves the state untouched and performs no collaborator calls (empty event
list).  A call accepted (`isProcessing = false`) always ends — successfully
or with an error — with the flag reset to `false`, so a subsequent call is
accepted: it actually runs (its event list is nonempty, never the busy
no-op). -/
theorem c7_single_flight (st : SchedState) (env env2 : SchedEnv) :
    (st.isProcessing = true →
        processNotes st env = (busyResult, st, []) ∧
          busyResult = ⟨false, 0, [str "Processing already in progress"], 0⟩) ∧
      (st.isProcessing = false →
        (processNotes st env).2.1.isProcessing = false ∧
          (processNotes (processNotes st env).2.1 env2).2.2 ≠ []) := by
  constructor
  · intro h
    exact ⟨by rw [processNotes, if_pos (by simp [h])], rfl⟩
  · intro h
    have h1 := processNotes_not_busy_state st env h
    exact ⟨h1, processNotes_not_busy_events _ env2 h1⟩

/-- Witness for C7 with concrete states and a trivial environment. -/
theorem c7_single_flight_witness :
    processNotes ⟨true, none⟩ ⟨.ok [], .ok (), fun _ => .ok [], fun _ _ => .ok (), 5⟩ =
        (busyResult, ⟨true, none⟩, []) ∧
      (processNotes ⟨false, none⟩
          ⟨.ok [], .ok (), fun _ => .ok [], fun _ _ => .ok (), 5⟩).2.1.isProcessing = false := by
  constructor
  · exact ((c7_single_flight ⟨true, none⟩
      ⟨.ok [], .ok (), fun _ => .ok [], fun _ _ => .ok (), 5⟩
      ⟨.ok [], .ok (), fun _ => .ok [], fun _ _ => .ok (), 5⟩).1 rfl).1
  · exact ((c7_single_flight ⟨false, none⟩
      ⟨.ok [], .ok (), fun _ => .ok [], fun _ _ => .ok (), 5⟩
      ⟨.ok [], .ok (), fun _ => .ok [], fun _ _ => .ok (), 5⟩).2 rfl).1

theorem processNotesLoop_spec (env : SchedEnv) (notes : List DailyNote) :
    (processNotesLoop env notes).1 =
        (notes.filter (fun n => !(jsTrim (prepareContentForAI n)).isEmpty &&
          exceptOk (perNoteOutcome env n))).length ∧
      (processNotesLoop env notes).2.1 =
        (notes.filter (fun n => !(jsTrim (prepareContentForAI n)).isEmpty &&
          !exceptOk (perNoteOutcome env n))).map
          (fun n => perNoteError n.file (perNoteFailMsg (perNoteOutcome env n))) := by
  induction notes with
  | nil => exact ⟨rfl, rfl⟩
  | cons n ns ih =>
    obtain ⟨ih1, ih2⟩ := ih
    rw [processNotesLoop]
    by_cases hskip : jsTrim (prepareContentForAI n) = []
    · rw [if_pos hskip]
      refine ⟨?_, ?_⟩ <;> simp [List.filter_cons, hskip, ih1, ih2]
    · rw [if_neg hskip]
      have he : (jsTrim (prepareContentForAI n)).isEmpty = false := by
        simpa [List.isEmpty_iff] using hskip
      rcases hai : env.aiProcess n with e | content
      · have ho : perNoteOutcome env n = .error e := by
          unfold perNoteOutcome
          rw [hai]
        simp only [hai]
        refine ⟨?_, ?_⟩ <;>
          simp [List.filter_cons, he, ho, exceptOk, perNoteFailMsg, ih1, ih2]
      · rcases hce : env.createEntry n content with e | u
        · have ho : perNoteOutcome env n = .error e := by
            unfold perNoteOutcome
            rw [hai]
            exact hce
          simp only [hai, hce]
          refine ⟨?_, ?_⟩ <;>
            simp [List.filter_cons, he, ho, exceptOk, perNoteFailMsg, ih1, ih2]
        · have ho : perNoteOutcome env n = .ok u := by
            unfold perNoteOutcome
            rw [hai]
            exact hce
          simp only [hai, hce]
          refine ⟨?_, ?_⟩ <;>
            simp [List.filter_cons, he, ho, exceptOk, perNoteFailMsg, ih1, ih2]

theorem isPrefixOf_append_self (p y : Str) : p.isPrefixOf (p ++ y) = true := by
  induction p with
  | nil => simp [List.isPrefixOf]
  | cons c t ih => simp [List.isPrefixOf, ih]

theorem hasSub_here (p y : Str) : hasSub p (p ++ y) = true := by
  cases hs : p ++ y with
  | nil =>
    have hp : p = [] := by cases p <;> simp_all
    subst hp
    simp [hasSub, List.isPrefixOf]
  | cons c t =>
    rw [hasSub, ← hs, isPrefixOf_append_self]
    simp

theorem hasSub_append_left (p x s : Str) (h : hasSub p s = true) :
    hasSub p (x ++ s) = true := by
  induction x with
  | nil => exact h
  | cons c t ih =>
    rw [List.cons_append, hasSub, ih]
    simp

/-- C8: in a batch run, notes whose AI call or journal write fails are
caught individually: the error list holds exactly one string per failing
note (in order, each containing that note's identifier), the processed
count counts exactly the non-skipped successful notes — later notes are
unaffected by earlier failures — and, for every invocation whatsoever, the
result's `success` flag is true iff its error list is empty. -/
theorem c8_per_note_isolation :
    (∀ (env : SchedEnv) (st : SchedState) (notes : List DailyNote),
        st.isProcessing = false → env.findNotes = .ok notes → notes ≠ [] →
        env.createAI = .ok () →
        (processNotes st env).1.processed =
            (notes.filter (fun n => !(jsTrim (prepareContentForAI n)).isEmpty &&
              exceptOk (perNoteOutcome env n))).length ∧
          (processNotes st env).1.errors =
            (notes.filter (fun n => !(jsTrim (prepareContentForAI n)).isEmpty &&
              !exceptOk (perNoteOutcome env n))).map
              (fun n => perNoteError n.file (perNoteFailMsg (perNoteOutcome env n))) ∧
          ∀ e ∈ (processNotes st env).1.errors, ∃ n ∈ notes, hasSub n.file e = true) ∧
      ∀ (env : SchedEnv) (st : SchedState),
        ((processNotes st env).1.success = true ↔ (processNotes st env).1.errors = []) := by
  constructor
  · intro env st notes hst hf hne hai
    have hres : processNotes st env =
        (⟨decide ((processNotesLoop env notes).2.1 = []), (processNotesLoop env notes).1,
          (processNotesLoop env notes).2.1, 0⟩, ⟨false, some env.now⟩,
          .enumerate :: (processNotesLoop env notes).2.2) := by
      rw [processNotes, if_neg (by simp [hst]), hf]
      simp only [if_neg hne, hai]
    rw [hres]
    refine ⟨(processNotesLoop_spec env notes).1, (processNotesLoop_spec env notes).2, ?_⟩
    intro e he
    rw [(processNotesLoop_spec env notes).2] at he
    rcases List.mem_map.mp he with ⟨n, hn, hmk⟩
    refine ⟨n, List.mem_of_mem_filter hn, ?_⟩
    rw [← hmk, perNoteError, List.append_assoc, List.append_assoc]
    exact hasSub_append_left n.file (str "Failed to process ")
      (n.file ++ (str ": " ++ perNoteFailMsg (perNoteOutcome env n)))
      (hasSub_here n.file (str ": " ++ perNoteFailMsg (perNoteOutcome env n)))
  · intro env st
    rw [processNotes]
    by_cases hb : st.isProcessing = true
    · rw [if_pos (by simp [hb])]
      simp [busyResult]
    · rw [if_neg (by simp [hb])]
      rcases henv : env.findNotes with e | notes
      · simp
      · by_cases hn : notes = []
        · simp [hn]
        · rcases hai : env.createAI with e | u
          · simp [hn]
          · simp only [if_neg hn]
            constructor
            · intro h
              exact of_decide_eq_true h
            · intro h
              simp [h]

/-- Witness for C8: three notes, the middle one failing in the AI call; the
surrounding notes are still processed and the batch reports one error
naming the failing note. -/
theorem c8_per_note_isolation_witness :
    (processNotes ⟨false, none⟩
        ⟨.ok [⟨str "a.md", str "d", [⟨str "hello", none⟩], []⟩,
              ⟨str "b.md", str "d", [⟨str "world", none⟩], []⟩,
              ⟨str "c.md", str "d", [⟨str "again", none⟩], []⟩], .ok (),
          fun n => if n.file = str "b.md" then .error (str "boom") else .ok (str "out"),
          fun _ _ => .ok (), 0⟩).1.processed = 2 ∧
      (processNotes ⟨false, none⟩
        ⟨.ok [⟨str "a.md", str "d", [⟨str "hello", none⟩], []⟩,
              ⟨str "b.md", str "d", [⟨str "world", none⟩], []⟩,
              ⟨str "c.md", str "d", [⟨str "again", none⟩], []⟩], .ok (),
          fun n => if n.file = str "b.md" then .error (str "boom") else .ok (str "out"),
          fun _ _ => .ok (), 0⟩).1.errors = [str "Failed to process b.md: boom"] ∧
      ((processNotes ⟨false, none⟩
        ⟨.ok [⟨str "a.md", str "d", [⟨str "hello", none⟩], []⟩,
              ⟨str "b.md", str "d", [⟨str "world", none⟩], []⟩,
              ⟨str "c.md", str "d", [⟨str "again", none⟩], []⟩], .ok (),
          fun n => if n.file = str "b.md" then .error (str "boom") else .ok (str "out"),
          fun _ _ => .ok (), 0⟩).1.success = true ↔
        (processNotes ⟨false, none⟩
        ⟨.ok [⟨str "a.md", str "d", [⟨str "hello", none⟩], []⟩,
              ⟨str "b.md", str "d", [⟨str "world", none⟩], []⟩,
              ⟨str "c.md", str "d", [⟨str "again", none⟩], []⟩], .ok (),
          fun n => if n.file = str "b.md" then .error (str "boom") else .ok (str "out"),
          fun _ _ => .ok (), 0⟩).1.errors = []) := by
  have h := c8_per_note_isolation
  have h1 := h.1
    ⟨.ok [⟨str "a.md", str "d", [⟨str "hello", none⟩], []⟩,
          ⟨str "b.md", str "d", [⟨str "world", none⟩], []⟩,
          ⟨str "c.md", str "d", [⟨str "again", none⟩], []⟩], .ok (),
      fun n => if n.file = str "b.md" then .error (str "boom") else .ok (str "out"),
      fun _ _ => .ok (), 0⟩
    ⟨false, none⟩
    [⟨str "a.md", str "d", [⟨str "hello", none⟩], []⟩,
     ⟨str "b.md", str "d", [⟨str "world", none⟩], []⟩,
     ⟨str "c.md", str "d", [⟨str "again", none⟩], []⟩]
    rfl rfl (by simp) rfl
  refine ⟨h1.1.trans (by decide), (h1.2.1).trans (by decide), h.2 _ _⟩

/-!  ## C5: sentiment-tag extraction  -/

theorem ciCh_symm (c d : Char) : ciCh c d = ciCh d c := by
  simp [ciCh, eq_comm]

theorem ciEq_iff_forall₂ (a b : Str) :
    ciEq a b = true ↔ List.Forall₂ (fun c d => ciCh c d = true) a b := by
  induction a generalizing b with
  | nil =>
    cases b with
    | nil => simp [ciEq]
    | cons d u => simp [ciEq]
  | cons c t ih =>
    cases b with
    | nil => simp [ciEq]
    | cons d u =>
      rw [ciEq, Bool.and_eq_true, ih]
      constructor
      · rintro ⟨h1, h2⟩; exact List.Forall₂.cons h1 h2
      · intro h; cases h; constructor <;> assumption

theorem ciEq_symm (a b : Str) : ciEq a b = ciEq b a := by
  induction a generalizing b with
  | nil => cases b <;> simp [ciEq]
  | cons c t ih =>
    cases b with
    | nil => simp [ciEq]
    | cons d u => rw [ciEq, ciEq, ciCh_symm, ih]

theorem ciEq_length (a b : Str) (h : ciEq a b = true) : a.length = b.length :=
  ((ciEq_iff_forall₂ a b).mp h).length_eq

theorem ciEq_false_of_length (a b : Str) (h : a.length ≠ b.length) : ciEq a b = false := by
  cases hc : ciEq a b
  · rfl
  · exact absurd (ciEq_length a b hc) h

theorem ciEq_reverse (a b : Str) (h : ciEq a b = true) : ciEq a.reverse b.reverse = true := by
  rw [ciEq_iff_forall₂] at h ⊢
  exact List.forall₂_reverse_iff.mpr h

theorem ws_toLower (c : Char) (h : isWsCh c = true) : c.toLower = c := by
  simp only [isWsCh, Bool.or_eq_true, decide_eq_true_eq] at h
  rcases h with (((((h | h) | h) | h) | h) | h) <;> (subst h; decide)

theorem ciCh_not_ws (c d : Char) (hd : isWsCh d.toLower = false) (h : ciCh c d = true) :
    isWsCh c = false := by
  cases hw : isWsCh c
  · rfl
  · exfalso
    rw [ciCh, decide_eq_true_eq] at h
    rw [ws_toLower c hw] at h
    rw [h] at hw
    rw [hw] at hd
    exact absurd hd (by simp)

theorem dropWhile_eq_self_of_head {p : Char → Bool} (s : Str)
    (h : ∀ c t, s = c :: t → p c = false) : List.dropWhile p s = s := by
  cases s with
  | nil => rfl
  | cons c t => rw [List.dropWhile_cons, if_neg (by simp [h c t rfl])]

/-- A string case-insensitively equal to a label whose first and last
letters are not whitespace is unchanged by trimming. -/
theorem jsTrim_of_ciEq_label (lab lbl : Str) (h : ciEq lab lbl = true)
    (h1 : isWsCh lbl.headI.toLower = false)
    (h2 : isWsCh lbl.reverse.headI.toLower = false) :
    jsTrim lab = lab := by
  have hfront : List.dropWhile isWsCh lab = lab := by
    apply dropWhile_eq_self_of_head
    intro c t hct
    rcases hb : lbl with _ | ⟨d, u⟩
    · subst hb
      rw [hct] at h
      simp [ciEq] at h
    · have hd : lbl.headI = d := by rw [hb]; rfl
      rw [hd] at h1
      rw [hb] at h
      rw [hct] at h
      have hf := (ciEq_iff_forall₂ _ _).mp h
      cases hf with
      | cons hcd _ => exact ciCh_not_ws c d h1 hcd
  have hback : List.dropWhile isWsCh lab.reverse = lab.reverse := by
    apply dropWhile_eq_self_of_head
    intro c t hct
    have hrev := ciEq_reverse lab lbl h
    rcases hb : lbl.reverse with _ | ⟨d, u⟩
    · rw [hb] at hrev
      rw [hct] at hrev
      simp [ciEq] at hrev
    · have hd : lbl.reverse.headI = d := by rw [hb]; rfl
      rw [hd] at h2
      rw [hb, hct] at hrev
      have hf := (ciEq_iff_forall₂ _ _).mp hrev
      cases hf with
      | cons hcd _ => exact ciCh_not_ws c d h2 hcd
  rw [jsTrim, hfront, hback, List.reverse_reverse]

theorem matchSentLine_inv (l lab : Str) (h : matchSentLine l = some lab) :
    ciEq lab (str "Very Happy") = true ∨ ciEq lab (str "Happy") = true ∨
      ciEq lab (str "Neutral") = true ∨ ciEq lab (str "Sad") = true ∨
      ciEq lab (str "Very Sad") = true := by
  rw [matchSentLine] at h
  by_cases h1 : ciEq (l.take 10) (str "SENTIMENT:") = true
  · rw [if_pos h1] at h
    by_cases h2 : (ciEq ((munchWs (l.drop 10)).2) (str "Very Happy") ||
        ciEq ((munchWs (l.drop 10)).2) (str "Happy") ||
        ciEq ((munchWs (l.drop 10)).2) (str "Neutral") ||
        ciEq ((munchWs (l.drop 10)).2) (str "Sad") ||
        ciEq ((munchWs (l.drop 10)).2) (str "Very Sad")) = true
    · rw [if_pos h2] at h
      have hlab : (munchWs (l.drop 10)).2 = lab := by injection h
      rw [hlab] at h2
      simpa [Bool.or_eq_true, or_assoc] using h2
    · rw [if_neg h2] at h
      exact absurd h (by simp)
  · rw [if_neg h1] at h
    exact absurd h (by simp)

theorem canonFind_of_matchSent (l lab : Str) (h : matchSentLine l = some lab) :
    ∃ s : Sentiment, canonFind (jsTrim lab) = some s := by
  rcases matchSentLine_inv l lab h with h5 | h5 | h5 | h5 | h5
  · refine ⟨.veryHappy, ?_⟩
    rw [jsTrim_of_ciEq_label lab (str "Very Happy") h5 (by decide) (by decide)]
    rw [canonFind, if_pos (by rw [ciEq_symm]; exact h5)]
  · refine ⟨.happy, ?_⟩
    rw [jsTrim_of_ciEq_label lab (str "Happy") h5 (by decide) (by decide)]
    have e1 : ciEq (str "Very Happy") lab = false :=
      ciEq_false_of_length _ _ (by rw [ciEq_length lab (str "Happy") h5]; decide)
    rw [canonFind, if_neg (by simp [e1]), if_pos (by rw [ciEq_symm]; exact h5)]
  · refine ⟨.neutral, ?_⟩
    rw [jsTrim_of_ciEq_label lab (str "Neutral") h5 (by decide) (by decide)]
    have e1 : ciEq (str "Very Happy") lab = false :=
      ciEq_false_of_length _ _ (by rw [ciEq_length lab (str "Neutral") h5]; decide)
    have e2 : ciEq (str "Happy") lab = false :=
      ciEq_false_of_length _ _ (by rw [ciEq_length lab (str "Neutral") h5]; decide)
    rw [canonFind, if_neg (by simp [e1]), if_neg (by simp [e2]),
      if_pos (by rw [ciEq_symm]; exact h5)]
  · refine ⟨.sad, ?_⟩
    rw [jsTrim_of_ciEq_label lab (str "Sad") h5 (by decide) (by decide)]
    have e1 : ciEq (str "Very Happy") lab = false :=
      ciEq_false_of_length _ _ (by rw [ciEq_length lab (str "Sad") h5]; decide)
    have e2 : ciEq (str "Happy") lab = false :=
      ciEq_false_of_length _ _ (by rw [ciEq_length lab (str "Sad") h5]; decide)
    have e3 : ciEq (str "Neutral") lab = false :=
      ciEq_false_of_length _ _ (by rw [ciEq_length lab (str "Sad") h5]; decide)
    rw [canonFind, if_neg (by simp [e1]), if_neg (by simp [e2]), if_neg (by simp [e3]),
      if_pos (by rw [ciEq_symm]; exact h5)]
  · refine ⟨.verySad, ?_⟩
    rw [jsTrim_of_ciEq_label lab (str "Very Sad") h5 (by decide) (by decide)]
    have e1 : ciEq (str "Very Happy") lab = false :=
      ciEq_false_of_length _ _ (by rw [ciEq_length lab (str "Very Sad") h5]; decide)
    have e2 : ciEq (str "Happy") lab = false :=
      ciEq_false_of_length _ _ (by rw [ciEq_length lab (str "Very Sad") h5]; decide)
    have e3 : ciEq (str "Neutral") lab = false :=
      ciEq_false_of_length _ _ (by rw [ciEq_length lab (str "Very Sad") h5]; decide)
    have e4 : ciEq (str "Sad") lab = false :=
      ciEq_false_of_length _ _ (by rw [ciEq_length lab (str "Very Sad") h5]; decide)
    rw [canonFind, if_neg (by simp [e1]), if_neg (by simp [e2]), if_neg (by simp [e3]),
      if_neg (by simp [e4]), if_pos (by rw [ciEq_symm]; exact h5)]

theorem bottomSentMatch_none (ls : List Str)
    (h : ∀ l ∈ ls, matchSentLine (jsTrim l) = none) : bottomSentMatch ls = none := by
  induction ls with
  | nil => rfl
  | cons l ls ih =>
    rw [bottomSentMatch, ih (fun x hx => h x (by simp [hx])), h l (by simp)]

theorem bottomSentMatch_found (ls : List Str) (i : Nat) (hi : i < ls.length) (lab : Str)
    (s : Sentiment) (hm : matchSentLine (jsTrim (ls.get ⟨i, hi⟩)) = some lab)
    (hc : canonFind (jsTrim lab) = some s)
    (hafter : ∀ (j : Nat) (hj : j < ls.length), i < j →
      matchSentLine (jsTrim (ls.get ⟨j, hj⟩)) = none) :
    bottomSentMatch ls = some (i, s) := by
  induction ls generalizing i with
  | nil => exact absurd hi (by simp)
  | cons l ls ih =>
    rw [bottomSentMatch]
    cases i with
    | zero =>
      have hnone : bottomSentMatch ls = none := by
        apply bottomSentMatch_none
        intro l' hl'
        rcases List.mem_iff_get.mp hl' with ⟨⟨j, hj⟩, hget⟩
        have h2 := hafter (j + 1) (by simpa using Nat.succ_lt_succ hj) (Nat.succ_pos j)
        rw [show (l :: ls).get ⟨j + 1, by simpa using Nat.succ_lt_succ hj⟩ =
          ls.get ⟨j, hj⟩ from rfl] at h2
        rw [hget] at h2
        exact h2
      rw [hnone]
      rw [show (l :: ls).get ⟨0, hi⟩ = l from rfl] at hm
      rw [hm]
      simp [hc]
    | succ i' =>
      have hi' : i' < ls.length := by simpa using hi
      have hm' : matchSentLine (jsTrim (ls.get ⟨i', hi'⟩)) = some lab := by
        rw [show (l :: ls).get ⟨i' + 1, hi⟩ = ls.get ⟨i', hi'⟩ from rfl] at hm
        exact hm
      have hafter' : ∀ (j : Nat) (hj : j < ls.length), i' < j →
          matchSentLine (jsTrim (ls.get ⟨j, hj⟩)) = none := by
        intro j hj hlt
        have h2 := hafter (j + 1) (by simpa using Nat.succ_lt_succ hj)
          (Nat.succ_lt_succ hlt)
        rw [show (l :: ls).get ⟨j + 1, by simpa using Nat.succ_lt_succ hj⟩ =
          ls.get ⟨j, hj⟩ from rfl] at h2
        exact h2
      rw [ih i' hi' hm' hafter']

/-- C5: `parseSentimentFromResponse` scans the trimmed response's lines
from last to first and stops at the first (bottommost) line matching the
case-insensitive pattern `SENTIMENT: <label>` with one of the five
canonical labels; it returns the label normalised to canonical casing and
the content equal to all lines strictly before that line, joined and
trimmed.  If no line matches, it returns Neutral with the full trimmed
response.  Every regex match normalises successfully (third conjunct), so
the scan always breaks at the bottommost matching line. -/
theorem c5_parse_sentiment (r : Str) :
    ((∀ l ∈ (jsTrim r).splitOn '\n', matchSentLine (jsTrim l) = none) →
        parseSentimentFromResponse r = ⟨jsTrim r, Sentiment.neutral⟩) ∧
      (∀ (i : Nat) (hi : i < ((jsTrim r).splitOn '\n').length) (lab : Str) (s : Sentiment),
        matchSentLine (jsTrim (((jsTrim r).splitOn '\n').get ⟨i, hi⟩)) = some lab →
        canonFind (jsTrim lab) = some s →
        (∀ (j : Nat) (hj : j < ((jsTrim r).splitOn '\n').length), i < j →
          matchSentLine (jsTrim (((jsTrim r).splitOn '\n').get ⟨j, hj⟩)) = none) →
        parseSentimentFromResponse r =
          ⟨jsTrim (List.intercalate ['\n'] (((jsTrim r).splitOn '\n').take i)), s⟩) ∧
      (∀ l lab, matchSentLine l = some lab → ∃ s, canonFind (jsTrim lab) = some s) := by
  refine ⟨?_, ?_, fun l lab h => canonFind_of_matchSent l lab h⟩
  · intro h
    rw [parseSentimentFromResponse]
    rw [bottomSentMatch_none _ h]
  · intro i hi lab s hm hc hafter
    rw [parseSentimentFromResponse]
    rw [bottomSentMatch_found _ i hi lab s hm hc hafter]

/-- Witness for C5: a response with a case-variant tag on the last line,
and one with no tag. -/
theorem c5_parse_sentiment_witness :
    parseSentimentFromResponse (str "good day\nSENTIMENT: hAPpy") =
        ⟨str "good day", Sentiment.happy⟩ ∧
      parseSentimentFromResponse (str "no tag") = ⟨str "no tag", Sentiment.neutral⟩ := by
  constructor
  · have h := (c5_parse_sentiment (str "good day\nSENTIMENT: hAPpy")).2.1 1 (by decide)
      (str "hAPpy") Sentiment.happy (by decide) (by decide) (by decide)
    rw [h]
    decide
  · have h := (c5_parse_sentiment (str "no tag")).1 (by decide)
    rw [h]
    decide

theorem mem_illegalToDash (s : Str) (c : Char) (h : c ∈ illegalToDash s) :
    illegalCh c = false := by
  rcases List.mem_map.mp h with ⟨a, _, he⟩
  by_cases ha : illegalCh a = true
  · rw [← he]
    simp only [ha, if_true]
    decide
  · rw [← he]
    simp only [Bool.not_eq_true] at ha
    simp [ha]

theorem replaceAux_nil (f : Str → Option MatchRes) (r : Str) (fuel : Nat)
    (hf : f [] = none) : replaceAux f r fuel [] = [] := by
  cases fuel with
  | zero => rfl
  | succ fuel => rw [replaceAux, hf]

theorem replaceWs_head (fuel : Nat) (c : Char) (t : Str) (h : isWsCh c = false) :
    (replaceAux matchWsPlus [' '] fuel (c :: t)).head? = some c := by
  cases fuel with
  | zero => rfl
  | succ fuel =>
    rw [replaceAux]
    simp [matchWsPlus, h]

theorem collapse_chain (fuel : Nat) :
    ∀ s : Str, s.length ≤ fuel → List.Chain' wsPair (replaceAux matchWsPlus [' '] fuel s) := by
  induction fuel with
  | zero =>
    intro s h
    have hs : s = [] := List.length_eq_zero.mp (Nat.le_zero.mp h)
    subst hs
    exact List.chain'_nil
  | succ fuel ih =>
    intro s hlen
    cases s with
    | nil => rw [replaceAux_nil _ _ _ rfl]; simp
    | cons c t =>
      by_cases hw : isWsCh c = true
      · have hmw : matchWsPlus (c :: t) =
            some ⟨c :: (munchWs t).1, .two [] [], (munchWs t).2⟩ := by
          simp [matchWsPlus, hw]
        rw [replaceAux]
        simp only [hmw]
        have hr : (munchWs t).2.length ≤ fuel := by
          have h2 := congrArg List.length (munchWs_append t)
          rw [List.length_append] at h2
          rw [List.length_cons] at hlen
          omega
        rw [List.singleton_append, List.chain'_cons']
        constructor
        · intro b hb
          cases hrest : (munchWs t).2 with
          | nil => rw [hrest, replaceAux_nil _ _ _ rfl] at hb; simp at hb
          | cons c2 t2 =>
            have hc2 : isWsCh c2 = false := munchWs_snd_head t c2 t2 hrest
            rw [hrest, replaceWs_head fuel c2 t2 hc2] at hb
            have hb2 : c2 = b := by simpa using hb
            rw [← hb2]
            exact Or.inr hc2
        · exact ih _ hr
      · have hmw : matchWsPlus (c :: t) = none := by simp [matchWsPlus, hw]
        rw [replaceAux, hmw]
        rw [List.chain'_cons']
        refine ⟨fun b _ => Or.inl (by simpa using hw), ?_⟩
        exact ih t (by rw [List.length_cons] at hlen; omega)

theorem collapseWs_chain (s : Str) : List.Chain' wsPair (collapseWs s) :=
  collapse_chain s.length s le_rfl

theorem mem_replaceWs (fuel : Nat) :
    ∀ (s : Str) (c : Char), c ∈ replaceAux matchWsPlus [' '] fuel s → c ∈ s ∨ c = ' ' := by
  induction fuel with
  | zero => intro s c h; exact Or.inl h
  | succ fuel ih =>
    intro s c h
    cases s with
    | nil => rw [replaceAux_nil _ _ _ rfl] at h; simp at h
    | cons a t =>
      by_cases hw : isWsCh a = true
      · have hmw : matchWsPlus (a :: t) =
            some ⟨a :: (munchWs t).1, .two [] [], (munchWs t).2⟩ := by
          simp [matchWsPlus, hw]
        rw [replaceAux, hmw] at h
        rcases List.mem_append.mp h with h2 | h2
        · exact Or.inr (by simpa using h2)
        · rcases ih _ c h2 with h3 | h3
          · refine Or.inl (List.mem_cons_of_mem _ ?_)
            rw [← munchWs_append t]
            exact List.mem_append_right _ h3
          · exact Or.inr h3
      · have hmw : matchWsPlus (a :: t) = none := by simp [matchWsPlus, hw]
        rw [replaceAux, hmw] at h
        rcases List.mem_cons.mp h with h2 | h2
        · exact Or.inl (by simp [h2])
        · rcases ih t c h2 with h3 | h3
          · exact Or.inl (List.mem_cons_of_mem _ h3)
          · exact Or.inr h3

theorem mem_jsTrim (s : Str) (c : Char) (h : c ∈ jsTrim s) : c ∈ s := by
  rw [jsTrim, List.mem_reverse] at h
  have h2 := (List.dropWhile_suffix isWsCh).subset h
  rw [List.mem_reverse] at h2
  exact (List.dropWhile_suffix isWsCh).subset h2

theorem mem_dotsToMd (s : Str) (c : Char) (h : c ∈ dotsToMd s) :
    c ∈ s ∨ c ∈ str ".md" := by
  rw [dotsToMd] at h
  by_cases hk : trailingDots s = 0
  · rw [if_pos hk] at h; exact Or.inl h
  · rw [if_neg hk] at h
    rcases List.mem_append.mp h with h2 | h2
    · exact Or.inl (List.take_subset _ _ h2)
    · exact Or.inr h2

theorem chain'_md : List.Chain' wsPair (str ".md") := by
  refine List.chain'_cons.mpr ⟨Or.inl (by decide), ?_⟩
  exact List.chain'_cons.mpr ⟨Or.inl (by decide), List.chain'_singleton _⟩

theorem chain'_dotsToMd (s : Str) (h : List.Chain' wsPair s) :
    List.Chain' wsPair (dotsToMd s) := by
  rw [dotsToMd]
  by_cases hk : trailingDots s = 0
  · rw [if_pos hk]; exact h
  · rw [if_neg hk]
    refine List.chain'_append.mpr ⟨h.take _, chain'_md, ?_⟩
    intro x _ y hy
    have hy2 : '.' = y := by simpa [str] using hy
    rw [← hy2]
    exact Or.inr (by decide)

theorem wsPair_symm (a b : Char) (h : wsPair a b) : wsPair b a := Or.symm h

theorem chain'_reverse_ws (s : Str) (h : List.Chain' wsPair s) :
    List.Chain' wsPair s.reverse := by
  rw [List.chain'_reverse]
  exact h.imp (fun a b hab => wsPair_symm a b hab)

theorem chain'_jsTrim (s : Str) (h : List.Chain' wsPair s) :
    List.Chain' wsPair (jsTrim s) := by
  rw [jsTrim]
  apply chain'_reverse_ws
  exact (chain'_reverse_ws _ (h.suffix (List.dropWhile_suffix isWsCh))).suffix
    (List.dropWhile_suffix isWsCh)

theorem jsTrim_append_md (a : Str) : ∃ p, jsTrim (a ++ str ".md") = p ++ str ".md" := by
  rw [jsTrim, List.dropWhile_append]
  by_cases he : (List.dropWhile isWsCh a).isEmpty = true
  · rw [if_pos he]
    refine ⟨[], ?_⟩
    rw [show List.dropWhile isWsCh (str ".md") = str ".md" from rfl]
    rfl
  · rw [if_neg (by simpa using he)]
    refine ⟨List.dropWhile isWsCh a, ?_⟩
    rw [show (List.dropWhile isWsCh a ++ str ".md").reverse =
      str "dm." ++ (List.dropWhile isWsCh a).reverse by rw [List.reverse_append]; rfl]
    rw [show List.dropWhile isWsCh (str "dm." ++ (List.dropWhile isWsCh a).reverse) =
      str "dm." ++ (List.dropWhile isWsCh a).reverse from rfl]
    rw [List.reverse_append]
    rw [List.reverse_reverse]
    rfl

set_option maxHeartbeats 1000000 in
/-- Counterexample to C3 as stated: a template with no dots at all is NOT
given a `.md` extension — `\.+$` only rewrites an existing trailing dot run. -/
theorem c3_no_md_forced :
    generateFilename ⟨2025, 9, 2, 15, 30, 45, 2⟩ (str "file") = str "file" ∧
    ∀ c ∈ str "file", c ≠ '.' := by decide

/-- C3 (amended): `generateFilename` output never contains an illegal
character, never has two adjacent whitespace characters, and the `.md`
handling is: when the pre-`.md` stage ends in no dot the result is just the
trimmed stage, while when it ends in one or more dots that dot run is
replaced by `.md`, so the result ends in `.md`. -/
theorem c3_sanitize_amended (d : DateT) (tpl : Str) :
    (∀ c ∈ generateFilename d tpl, illegalCh c = false) ∧
    List.Chain' wsPair (generateFilename d tpl) ∧
    (trailingDots (stripLeadingDots (collapseWs (illegalToDash (substituteTokens d tpl)))) = 0 →
      generateFilename d tpl =
        jsTrim (stripLeadingDots (collapseWs (illegalToDash (substituteTokens d tpl))))) ∧
    (trailingDots (stripLeadingDots (collapseWs (illegalToDash (substituteTokens d tpl)))) ≠ 0 →
      ∃ p, generateFilename d tpl = p ++ str ".md") := by
  have key : ∀ Y : Str, (∀ c ∈ Y, illegalCh c = false) →
      List.Chain' wsPair Y →
      (∀ c ∈ jsTrim (dotsToMd Y), illegalCh c = false) ∧
      List.Chain' wsPair (jsTrim (dotsToMd Y)) ∧
      (trailingDots Y = 0 → jsTrim (dotsToMd Y) = jsTrim Y) ∧
      (trailingDots Y ≠ 0 → ∃ p, jsTrim (dotsToMd Y) = p ++ str ".md") := by
    intro Y hill hch
    refine ⟨?_, ?_, ?_, ?_⟩
    · intro c hc
      rcases mem_dotsToMd _ c (mem_jsTrim _ c hc) with h2 | h2
      · exact hill c h2
      · exact (by decide : ∀ x ∈ str ".md", illegalCh x = false) c h2
    · exact chain'_jsTrim _ (chain'_dotsToMd _ hch)
    · intro h0
      simp only [dotsToMd]
      rw [if_pos h0]
    · intro h0
      simp only [dotsToMd]
      rw [if_neg h0]
      exact jsTrim_append_md _
  have hill : ∀ c ∈ stripLeadingDots (collapseWs (illegalToDash (substituteTokens d tpl))),
      illegalCh c = false := by
    intro c hc
    simp only [stripLeadingDots] at hc
    have h3 : c ∈ collapseWs (illegalToDash (substituteTokens d tpl)) :=
      (List.dropWhile_suffix _).subset hc
    simp only [collapseWs] at h3
    rcases mem_replaceWs _ _ c h3 with h4 | h4
    · exact mem_illegalToDash _ c h4
    · rw [h4]; decide
  have hch : List.Chain' wsPair
      (stripLeadingDots (collapseWs (illegalToDash (substituteTokens d tpl)))) :=
    (collapseWs_chain _).suffix (List.dropWhile_suffix _)
  exact key _ hill hch

set_option maxHeartbeats 1000000 in
/-- Witness for the amended C3: on the template `a<b.` the pre-`.md` stage
ends in a dot, and the generated filename indeed ends in `.md`. -/
theorem c3_sanitize_amended_witness :
    trailingDots (stripLeadingDots (collapseWs (illegalToDash
      (substituteTokens ⟨2025, 9, 2, 15, 30, 45, 2⟩ (str "a<b."))))) ≠ 0 ∧
    ∃ p, generateFilename ⟨2025, 9, 2, 15, 30, 45, 2⟩ (str "a<b.") = p ++ str ".md" :=
  ⟨by decide, (c3_sanitize_amended ⟨2025, 9, 2, 15, 30, 45, 2⟩ (str "a<b.")).2.2.2 (by decide)⟩

theorem NumLit.core_ne_nil (n : NumLit) (hwf : n.wf) : n.core ≠ [] := by
  obtain ⟨hip, _, _, _⟩ := hwf
  rw [NumLit.core]
  intro h
  exact hip (List.append_eq_nil.mp h).1

theorem NumLit.render_ne_nil (n : NumLit) (hwf : n.wf) : n.render ≠ [] := by
  rw [NumLit.render]
  intro h
  exact NumLit.core_ne_nil n hwf (List.append_eq_nil.mp h).2

theorem NumLit.core_chars (n : NumLit) (hwf : n.wf) :
    ∀ c ∈ n.core, c = '.' ∨ c.isDigit = true := by
  obtain ⟨_, hipd, hfd, _⟩ := hwf
  intro c hc
  rw [NumLit.core] at hc
  rcases List.mem_append.mp hc with h | h
  · exact Or.inr (hipd c h)
  · by_cases hd : n.hasDot
    · rw [if_pos hd] at h
      rcases List.mem_cons.mp h with h | h
      · exact Or.inl h
      · exact Or.inr (hfd c h)
    · rw [if_neg hd] at h
      simp at h

theorem NumLit.render_chars (n : NumLit) (hwf : n.wf) :
    ∀ c ∈ n.render, c = '-' ∨ c = '.' ∨ c.isDigit = true := by
  intro c hc
  rw [NumLit.render] at hc
  rcases List.mem_append.mp hc with h | h
  · by_cases hn : n.neg
    · rw [if_pos hn] at h
      exact Or.inl (by simpa using h)
    · rw [if_neg hn] at h
      simp at h
  · rcases NumLit.core_chars n hwf c h with h | h
    · exact Or.inr (Or.inl h)
    · exact Or.inr (Or.inr h)

theorem NumLit.core_head_digit (n : NumLit) (hwf : n.wf) :
    ∀ c t, n.core = c :: t → c.isDigit = true := by
  obtain ⟨hip, hipd, _, _⟩ := hwf
  intro c t h
  rw [NumLit.core] at h
  cases hi : n.ip with
  | nil => exact absurd hi hip
  | cons c0 t0 =>
    rw [hi] at h
    injection h with h1 _
    rw [← h1]
    exact hipd c0 (by rw [hi]; simp)

theorem NumLit.render_head (n : NumLit) (hwf : n.wf) :
    ∀ c t, n.render = c :: t → c = '-' ∨ c.isDigit = true := by
  intro c t h
  rw [NumLit.render] at h
  by_cases hn : n.neg
  · rw [if_pos hn] at h
    injection h with h1 _
    exact Or.inl h1.symm
  · rw [if_neg hn, List.nil_append] at h
    exact Or.inr (NumLit.core_head_digit n hwf c t h)

theorem matchNumCore_core (n : NumLit) (hwf : n.wf) (r : Str)
    (hr : ∀ c t, r = c :: t → c.isDigit = false ∧ c ≠ '.') :
    matchNumCore (n.core ++ r) = some (n.core, r) := by
  obtain ⟨hip, hipd, hfd, hnd⟩ := hwf
  by_cases hd : n.hasDot
  · have hcore : n.core = n.ip ++ '.' :: n.frac := by simp [NumLit.core, hd]
    rw [hcore]
    have h1 : munchDigits ((n.ip ++ '.' :: n.frac) ++ r) = (n.ip, '.' :: (n.frac ++ r)) := by
      rw [List.append_assoc, List.cons_append]
      exact munchDigits_of_digits n.ip ('.' :: (n.frac ++ r)) hipd
        (by intro c t h; injection h with h1 _; rw [← h1]; decide)
    have h2 : munchDigits (n.frac ++ r) = (n.frac, r) :=
      munchDigits_of_digits n.frac r hfd (fun c t h => (hr c t h).1)
    simp only [matchNumCore, h1, h2]
    rw [if_neg hip]
  · have hf : n.frac = [] := hnd (by simpa using hd)
    have hcore : n.core = n.ip := by simp [NumLit.core, hd]
    rw [hcore]
    have h1 : munchDigits (n.ip ++ r) = (n.ip, r) :=
      munchDigits_of_digits n.ip r hipd (fun c t h => (hr c t h).1)
    simp only [matchNumCore, h1]
    rw [if_neg hip]
    cases hr2 : r with
    | nil => rfl
    | cons c t =>
      have := hr c t hr2
      cases hc : c
      simp_all

theorem matchNum_cons_ne_dash (c : Char) (t : Str) (h : c ≠ '-') :
    matchNum (c :: t) = matchNumCore (c :: t) := by
  unfold matchNum
  split
  · next t2 heq =>
    injection heq with h1 _
    exact absurd h1 h
  · rfl

theorem matchNum_render (n : NumLit) (hwf : n.wf) (r : Str)
    (hr : ∀ c t, r = c :: t → c.isDigit = false ∧ c ≠ '.') :
    matchNum (n.render ++ r) = some (n.render, r) := by
  by_cases hn : n.neg
  · have hrend : n.render = '-' :: n.core := by simp [NumLit.render, hn]
    rw [hrend, List.cons_append]
    rw [show matchNum ('-' :: (n.core ++ r)) =
      match matchNumCore (n.core ++ r) with
      | some (m, r2) => some ('-' :: m, r2)
      | none => none from rfl]
    rw [matchNumCore_core n hwf r hr]
  · have hrend : n.render = n.core := by simp [NumLit.render, hn]
    rw [hrend]
    cases hc : n.core with
    | nil => exact absurd hc (NumLit.core_ne_nil n hwf)
    | cons c0 t0 =>
      have hd : c0.isDigit = true := NumLit.core_head_digit n hwf c0 t0 hc
      have hne : c0 ≠ '-' := by
        intro he
        rw [he] at hd
        exact absurd hd (by decide)
      rw [List.cons_append, matchNum_cons_ne_dash c0 (t0 ++ r) hne, ← List.cons_append, ← hc]
      exact matchNumCore_core n hwf r hr

theorem parseNum_cons_ne_dash (c : Char) (t : Str) (h : c ≠ '-') :
    parseNum (c :: t) = parseUnsigned (c :: t) := by
  unfold parseNum
  split
  · next t2 heq =>
    injection heq with h1 _
    exact absurd h1 h
  · rfl

theorem DecNum.neg_val (d : DecNum) : d.neg.val = -d.val := by
  rw [DecNum.neg, DecNum.val, DecNum.val]
  push_cast
  ring

theorem parseUnsigned_core_val (n : NumLit) (hwf : n.wf) :
    (parseUnsigned n.core).val = n.mag := by
  obtain ⟨hip, hipd, hfd, hnd⟩ := hwf
  by_cases hd : n.hasDot
  · have hcore : n.core = n.ip ++ '.' :: n.frac := by simp [NumLit.core, hd]
    rw [hcore]
    have h1 : munchDigits (n.ip ++ '.' :: n.frac) = (n.ip, '.' :: n.frac) :=
      munchDigits_of_digits n.ip ('.' :: n.frac) hipd
        (by intro c t h; injection h with h1 _; rw [← h1]; decide)
    have h2 : munchDigits n.frac = (n.frac, []) := by
      have := munchDigits_of_digits n.frac [] hfd (by intro c t h; simp at h)
      simpa using this
    simp only [parseUnsigned, h1, h2]
    rw [NumLit.mag, DecNum.val]
    push_cast [pow10_cast]
    have hpow : ((10 : ℚ) ^ n.frac.length) ≠ 0 := by positivity
    field_simp
  · have hf : n.frac = [] := hnd (by simpa using hd)
    have hcore : n.core = n.ip := by simp [NumLit.core, hd]
    rw [hcore]
    have h1 : munchDigits n.ip = (n.ip, []) := by
      have := munchDigits_of_digits n.ip [] hipd (by intro c t h; simp at h)
      simpa using this
    simp only [parseUnsigned, h1]
    rw [NumLit.mag, DecNum.val, hf]
    show ((digitsVal n.ip : Int) : ℚ) / (10 : ℚ) ^ (0 : Nat) = _
    push_cast
    simp [digitsVal]

theorem parseNum_core_val (n : NumLit) (hwf : n.wf) :
    (parseNum n.core).val = n.mag := by
  cases hc : n.core with
  | nil => exact absurd hc (NumLit.core_ne_nil n hwf)
  | cons c0 t0 =>
    have hd : c0.isDigit = true := NumLit.core_head_digit n hwf c0 t0 hc
    have hne : c0 ≠ '-' := by
      intro he
      rw [he] at hd
      exact absurd hd (by decide)
    rw [parseNum_cons_ne_dash c0 t0 hne, ← hc]
    exact parseUnsigned_core_val n hwf

theorem parseNum_render_val (n : NumLit) (hwf : n.wf) :
    (parseNum n.render).val = n.value := by
  by_cases hn : n.neg
  · have hrend : n.render = '-' :: n.core := by simp [NumLit.render, hn]
    rw [hrend]
    rw [show parseNum ('-' :: n.core) = (parseUnsigned n.core).neg from rfl]
    rw [DecNum.neg_val, parseUnsigned_core_val n hwf, NumLit.value, if_pos hn]
  · have hrend : n.render = n.core := by simp [NumLit.render, hn]
    rw [hrend, parseNum_core_val n hwf, NumLit.value, if_neg hn]

theorem degLat_val (a : NumLit) (h1 : Char) (hwf : a.wf) :
    (degLat a h1).val = if h1.toUpper = 'S' then -a.mag else a.mag := by
  rw [degLat]
  by_cases hs : h1.toUpper = 'S'
  · rw [if_pos hs, if_pos hs, DecNum.neg_val, parseNum_core_val a hwf]
  · rw [if_neg hs, if_neg hs, parseNum_core_val a hwf]

theorem degLng_val (b : NumLit) (h2 : Char) (hwf : b.wf) :
    (degLng b h2).val = if h2.toUpper = 'W' then -b.mag else b.mag := by
  rw [degLng]
  by_cases hs : h2.toUpper = 'W'
  · rw [if_pos hs, if_pos hs, DecNum.neg_val, parseNum_core_val b hwf]
  · rw [if_neg hs, if_neg hs, parseNum_core_val b hwf]

theorem scanAux_succ (f : Str → Option MatchRes) (fuel : Nat) (s : Str) :
    scanAux f (Nat.succ fuel) s =
      match f s with
      | some res => res :: scanAux f fuel res.rest
      | none =>
        match s with
        | [] => []
        | _ :: t => scanAux f fuel t := rfl

theorem scanAux_none (f : Str → Option MatchRes) (fuel : Nat) :
    ∀ s : Str, (∀ t, t <:+ s → f t = none) → scanAux f fuel s = [] := by
  induction fuel with
  | zero => intro s h; rfl
  | succ fuel ih =>
    intro s h
    cases s with
    | nil =>
      rw [scanAux_succ, h [] List.suffix_rfl]
    | cons c t =>
      rw [scanAux_succ, h (c :: t) List.suffix_rfl]
      exact ih t (fun u hu => h u (hu.trans (List.suffix_cons c t)))

theorem scanAux_match (f : Str → Option MatchRes) (fuel : Nat) (s : Str) (res : MatchRes)
    (h : f s = some res) :
    scanAux f (Nat.succ fuel) s = res :: scanAux f fuel res.rest := by
  rw [scanAux_succ, h]

theorem scanAux_shift (f : Str → Option MatchRes) (v : Str) (fuel : Nat) :
    ∀ u : Str, (∀ w, w <:+ u → w ≠ [] → f (w ++ v) = none) →
      scanAux f (u.length + fuel) (u ++ v) = scanAux f fuel v := by
  intro u
  induction u with
  | nil => intro _; simp
  | cons c u ih =>
    intro h
    have h1 : f (c :: (u ++ v)) = none := h (c :: u) List.suffix_rfl (by simp)
    rw [show (c :: u).length + fuel = Nat.succ (u.length + fuel) from by
      rw [List.length_cons, Nat.succ_add]]
    rw [List.cons_append, scanAux_succ, h1]
    exact ih (fun w hw hne => h w (hw.trans (List.suffix_cons c u)) hne)

theorem scan_single (f : Str → Option MatchRes) (u v : Str) (res : MatchRes)
    (h0 : ∀ w, w <:+ u → w ≠ [] → f (w ++ v) = none)
    (h1 : f v = some res)
    (h2 : ∀ t, t <:+ res.rest → f t = none)
    (hv : v ≠ []) :
    scanMatches f (u ++ v) = [res] := by
  rw [scanMatches, List.length_append, scanAux_shift f v v.length u h0]
  obtain ⟨c, v2, hv2⟩ := List.exists_cons_of_ne_nil hv
  subst hv2
  rw [show (c :: v2).length = Nat.succ v2.length from rfl]
  rw [scanAux_match f v2.length _ res h1]
  rw [scanAux_none f v2.length res.rest h2]

theorem scan_none (f : Str → Option MatchRes) (s : Str)
    (h : ∀ t, t <:+ s → f t = none) : scanMatches f s = [] :=
  scanAux_none f s.length s h

theorem scan_none_of_chars (f : Str → Option MatchRes) (s : Str)
    (hnil : f [] = none) (h : ∀ c t, c ∈ s → f (c :: t) = none) :
    scanMatches f s = [] := by
  apply scan_none
  intro t ht
  cases t with
  | nil => exact hnil
  | cons c t2 => exact h c t2 (ht.subset (by simp))

theorem matchNumCore_nil : matchNumCore [] = none := rfl

theorem matchNumCore_head (c : Char) (t : Str) (h : c.isDigit = false) :
    matchNumCore (c :: t) = none := by
  simp [matchNumCore, munchDigits, h]

theorem matchNum_nil : matchNum [] = none := rfl

theorem matchNum_head (c : Char) (t : Str) (h1 : c.isDigit = false) (h2 : c ≠ '-') :
    matchNum (c :: t) = none := by
  rw [matchNum_cons_ne_dash c t h2]
  exact matchNumCore_head c t h1

theorem matchBare_nil : matchBare [] = none := rfl

theorem matchBare_head (c : Char) (t : Str) (h1 : c.isDigit = false) (h2 : c ≠ '-') :
    matchBare (c :: t) = none := by
  rw [matchBare, matchNum_head c t h1 h2]

theorem matchDegree_nil : matchDegree [] = none := rfl

theorem matchDegree_head (c : Char) (t : Str) (h : c.isDigit = false) :
    matchDegree (c :: t) = none := by
  rw [matchDegree, matchNumCore_head c t h]

theorem matchBracket_nil : matchBracket [] = none := rfl

theorem matchBracket_head (c : Char) (t : Str) (h : c ≠ '[') :
    matchBracket (c :: t) = none := by
  unfold matchBracket
  split
  · next t2 heq =>
    injection heq with hh _
    exact absurd hh h
  · rfl

theorem matchParen_nil : matchParen [] = none := rfl

theorem matchParen_head (c : Char) (t : Str) (h : c ≠ '(') :
    matchParen (c :: t) = none := by
  unfold matchParen
  split
  · next t2 heq =>
    injection heq with hh _
    exact absurd hh h
  · rfl

theorem matchGps_nil : matchGps [] = none := rfl

theorem matchGps_head (c : Char) (t : Str) (h : ciCh c 'G' = false) :
    matchGps (c :: t) = none := by
  unfold matchGps
  split
  · next c1 c2 c3 c4 t2 heq =>
    injection heq with hh _
    subst hh
    rw [h]
    simp
  · rfl

theorem matchLocation_nil : matchLocation [] = none := rfl

theorem matchLocation_head (c : Char) (t : Str) (h : ciCh c 'L' = false) :
    matchLocation (c :: t) = none := by
  unfold matchLocation
  split
  · next c1 c2 c3 c4 c5 c6 c7 c8 c9 t2 heq =>
    injection heq with hh _
    subst hh
    rw [h]
    simp
  · rfl

theorem matchDegree_eq (t : Str) :
    matchDegree t =
      match matchNumCore t with
      | some (a, r1) => degreeCont a r1
      | none => none := rfl

theorem degreeCont_nil (a : Str) : degreeCont a [] = none := rfl

theorem degreeCont_head (a : Str) (c : Char) (r2 : Str) (h1 : c ≠ '°')
    (h2 : isWsCh c = false) (h3 : isNSCh c = false) : degreeCont a (c :: r2) = none := by
  simp [degreeCont, h1, h2, h3, munchWs]

theorem matchDegree_none_of_cont (t : Str)
    (h : ∀ a r, matchNumCore t = some (a, r) → degreeCont a r = none) :
    matchDegree t = none := by
  rw [matchDegree_eq]
  cases hm : matchNumCore t with
  | none => rfl
  | some p =>
    obtain ⟨a, r⟩ := p
    exact h a r hm

theorem matchBare_eq (t : Str) :
    matchBare t =
      match matchNum t with
      | some (a, r1) => bareCont a r1
      | none => none := rfl

theorem bareCont_nil (a : Str) : bareCont a [] = none := rfl

theorem bareCont_head (a : Str) (c : Char) (r2 : Str) (hc : c ≠ ',') :
    bareCont a (c :: r2) = none := by
  simp [bareCont, hc]

theorem matchBare_none_of_cont (t : Str)
    (h : ∀ a r, matchNum t = some (a, r) → bareCont a r = none) :
    matchBare t = none := by
  rw [matchBare_eq]
  cases hm : matchNum t with
  | none => rfl
  | some p =>
    obtain ⟨a, r⟩ := p
    exact h a r hm

theorem suffix_append_cases (t p q : Str) (h : t <:+ p ++ q) :
    t <:+ q ∨ ∃ u, u ≠ [] ∧ t = u ++ q ∧ u <:+ p := by
  obtain ⟨v, hv⟩ := h
  rcases List.append_eq_append_iff.mp hv with ⟨w, hw1, hw2⟩ | ⟨w, hw1, hw2⟩
  · cases w with
    | nil => exact Or.inl (by rw [hw2]; simp)
    | cons c w2 =>
      refine Or.inr ⟨c :: w2, by simp, hw2, ⟨v, hw1.symm⟩⟩
  · exact Or.inl ⟨w, hw2.symm⟩

theorem matchNumCore_digits (d : Str) (hd : d ≠ []) (hdd : ∀ c ∈ d, c.isDigit = true)
    (r0 : Str) (hr0 : ∀ c t, r0 = c :: t → c.isDigit = false ∧ c ≠ '.') :
    matchNumCore (d ++ r0) = some (d, r0) := by
  have h := matchNumCore_core ⟨false, d, false, []⟩ ⟨hd, hdd, by simp, fun _ => rfl⟩ r0 hr0
  simpa [NumLit.core] using h

theorem matchNumCore_digits_dot (i f : Str) (hi : i ≠ [])
    (hid : ∀ c ∈ i, c.isDigit = true) (hfd : ∀ c ∈ f, c.isDigit = true)
    (r0 : Str) (hr0 : ∀ c t, r0 = c :: t → c.isDigit = false ∧ c ≠ '.') :
    matchNumCore ((i ++ '.' :: f) ++ r0) = some (i ++ '.' :: f, r0) := by
  have h := matchNumCore_core ⟨false, i, true, f⟩ ⟨hi, hid, hfd, by simp⟩ r0 hr0
  simpa [NumLit.core] using h

theorem core_suffix_rest (n : NumLit) (hwf : n.wf) (u : Str) (hu : u <:+ n.core) (r0 : Str)
    (hr0 : ∀ c t, r0 = c :: t → c.isDigit = false ∧ c ≠ '.') :
    ∀ x r, matchNumCore (u ++ r0) = some (x, r) → r = r0 := by
  obtain ⟨hip, hipd, hfd, hnd⟩ := hwf
  have hnone : ∀ x r, matchNumCore r0 = some (x, r) → r = r0 := by
    intro x r h
    cases hr : r0 with
    | nil => rw [hr, matchNumCore_nil] at h; exact absurd h (by simp)
    | cons c t =>
      rw [hr, matchNumCore_head c t (hr0 c t hr).1] at h
      exact absurd h (by simp)
  have hdig : ∀ u2 : Str, (∀ c ∈ u2, c.isDigit = true) →
      ∀ x r, matchNumCore (u2 ++ r0) = some (x, r) → r = r0 := by
    intro u2 hu2 x r h
    cases hc : u2 with
    | nil => rw [hc] at h; exact hnone x r (by simpa using h)
    | cons c t =>
      rw [hc, matchNumCore_digits (c :: t) (by simp) (by rw [← hc]; exact hu2) r0 hr0] at h
      injection h with h2
      injection h2 with _ h3
      exact h3.symm
  by_cases hd : n.hasDot
  · have hcore : n.core = n.ip ++ '.' :: n.frac := by simp [NumLit.core, hd]
    rw [hcore] at hu
    rcases suffix_append_cases u n.ip ('.' :: n.frac) hu with h1 | ⟨w, hw1, hw2, hw3⟩
    · rcases List.suffix_cons_iff.mp h1 with h2 | h2
      · subst h2
        intro x r h
        rw [List.cons_append, matchNumCore_head '.' _ (by decide)] at h
        exact absurd h (by simp)
      · exact hdig u (fun c hc => hfd c (h2.subset hc))
    · subst hw2
      intro x r h
      rw [List.append_assoc, List.cons_append, ← List.cons_append, ← List.append_assoc] at h
      rw [matchNumCore_digits_dot w n.frac hw1 (fun c hc => hipd c (hw3.subset hc)) hfd r0 hr0]
        at h
      injection h with h2
      injection h2 with _ h3
      exact h3.symm
  · have hcore : n.core = n.ip := by simp [NumLit.core, hd]
    rw [hcore] at hu
    exact hdig u (fun c hc => hipd c (hu.subset hc))

theorem matchNum_core_suffix_rest (n : NumLit) (hwf : n.wf) (u : Str) (hu : u <:+ n.core)
    (r0 : Str) (hr0 : ∀ c t, r0 = c :: t → c.isDigit = false ∧ c ≠ '.' ∧ c ≠ '-') :
    ∀ x r, matchNum (u ++ r0) = some (x, r) → r = r0 := by
  have hr0c : ∀ c t, r0 = c :: t → c.isDigit = false ∧ c ≠ '.' :=
    fun c t h => ⟨(hr0 c t h).1, (hr0 c t h).2.1⟩
  cases hc : u with
  | nil =>
    intro x r h
    rw [List.nil_append] at h
    cases hr : r0 with
    | nil => rw [hr, matchNum_nil] at h; exact absurd h (by simp)
    | cons c t =>
      rw [hr, matchNum_head c t (hr0 c t hr).1 (hr0 c t hr).2.2] at h
      exact absurd h (by simp)
  | cons c t =>
    have hmem : c ∈ n.core := hu.subset (by rw [hc]; simp)
    have hcd : c ≠ '-' := by
      rcases NumLit.core_chars n hwf c hmem with h2 | h2
      · rw [h2]; decide
      · intro he
        rw [he] at h2
        exact absurd h2 (by decide)
    intro x r h
    rw [List.cons_append, matchNum_cons_ne_dash c (t ++ r0) hcd, ← List.cons_append] at h
    rw [← hc] at h
    exact core_suffix_rest n ⟨hwf.1, hwf.2.1, hwf.2.2.1, hwf.2.2.2⟩ u hu r0 hr0c x r h

theorem matchNum_suffix_rest (n : NumLit) (hwf : n.wf) (u : Str) (hu : u <:+ n.render)
    (r0 : Str) (hr0 : ∀ c t, r0 = c :: t → c.isDigit = false ∧ c ≠ '.' ∧ c ≠ '-') :
    ∀ x r, matchNum (u ++ r0) = some (x, r) → r = r0 := by
  by_cases hn : n.neg
  · have hrend : n.render = '-' :: n.core := by simp [NumLit.render, hn]
    rw [hrend] at hu
    rcases List.suffix_cons_iff.mp hu with h2 | h2
    · subst h2
      intro x r h
      rw [List.cons_append] at h
      rw [show matchNum ('-' :: (n.core ++ r0)) =
        match matchNumCore (n.core ++ r0) with
        | some (m, r2) => some ('-' :: m, r2)
        | none => none from rfl] at h
      rw [matchNumCore_core n hwf r0
        (fun c t hh => ⟨(hr0 c t hh).1, (hr0 c t hh).2.1⟩)] at h
      injection h with h2
      injection h2 with _ h3
      exact h3.symm
    · exact matchNum_core_suffix_rest n hwf u h2 r0 hr0
  · have hrend : n.render = n.core := by simp [NumLit.render, hn]
    rw [hrend] at hu
    exact matchNum_core_suffix_rest n hwf u hu r0 hr0

theorem digit_toLower (c : Char) (h : c.isDigit = true) : c.toLower = c := by
  simp only [Char.isDigit] at h
  rw [Bool.and_eq_true, decide_eq_true_eq, decide_eq_true_eq] at h
  obtain ⟨h1, h2⟩ := h
  have hb : c.toNat ≤ 57 := UInt32.toNat_le_of_le (by norm_num) h2
  rw [Char.toLower, if_neg (by omega)]

theorem digit_ci_false (c d : Char) (h : c.isDigit = true)
    (hd : d.toLower.isDigit = false) : ciCh c d = false := by
  rw [ciCh, digit_toLower c h, decide_eq_false_iff_not]
  intro he
  rw [he] at h
  exact absurd h (by rw [hd]; simp)

theorem isNSCh_props (c : Char) (h : isNSCh c = true) :
    c.isDigit = false ∧ c ≠ '-' ∧ c ≠ ',' ∧ c ≠ '°' ∧ isWsCh c = false ∧
    c ≠ '[' ∧ c ≠ '(' ∧ ciCh c 'G' = false ∧ ciCh c 'L' = false ∧ c ≠ '.' := by
  rw [isNSCh] at h
  rcases (by simpa using h : ((c = 'N' ∨ c = 'S') ∨ c = 'n') ∨ c = 's') with
    ((h1 | h1) | h1) | h1 <;>
    (subst h1; exact ⟨by decide, by decide, by decide, by decide, by decide, by decide,
      by decide, by decide, by decide, by decide⟩)

theorem isEWCh_props (c : Char) (h : isEWCh c = true) :
    c.isDigit = false ∧ c ≠ '-' ∧ c ≠ ',' ∧ c ≠ '°' ∧ isWsCh c = false ∧ isNSCh c = false ∧
    c ≠ '[' ∧ c ≠ '(' ∧ ciCh c 'G' = false ∧ ciCh c 'L' = false ∧ c ≠ '.' := by
  rw [isEWCh] at h
  rcases (by simpa using h : ((c = 'E' ∨ c = 'W') ∨ c = 'e') ∨ c = 'w') with
    ((h1 | h1) | h1) | h1 <;>
    (subst h1; exact ⟨by decide, by decide, by decide, by decide, by decide, by decide,
      by decide, by decide, by decide, by decide, by decide⟩)

theorem NumLit.render_head_not_ws (n : NumLit) (hwf : n.wf) :
    ∀ c t, n.render = c :: t → isWsCh c = false := by
  intro c t h
  rcases NumLit.render_head n hwf c t h with h1 | h1
  · rw [h1]; decide
  · exact digit_not_ws c h1

theorem NumLit.core_head_not_ws (n : NumLit) (hwf : n.wf) :
    ∀ c t, n.core = c :: t → isWsCh c = false := fun c t h =>
  digit_not_ws c (NumLit.core_head_digit n hwf c t h)

theorem bareInput_chars (a b : NumLit) (ha : a.wf) (hb : b.wf) :
    ∀ c ∈ bareInput a b, c = ',' ∨ c = ' ' ∨ c = '-' ∨ c = '.' ∨ c.isDigit = true := by
  intro c hc
  rw [bareInput] at hc
  rcases List.mem_append.mp hc with h | h
  · rcases NumLit.render_chars a ha c h with h1 | h1 | h1
    · exact Or.inr (Or.inr (Or.inl h1))
    · exact Or.inr (Or.inr (Or.inr (Or.inl h1)))
    · exact Or.inr (Or.inr (Or.inr (Or.inr h1)))
  · rcases List.mem_cons.mp h with h1 | h1
    · exact Or.inl h1
    · rcases List.mem_cons.mp h1 with h2 | h2
      · exact Or.inr (Or.inl h2)
      · rcases NumLit.render_chars b hb c h2 with h3 | h3 | h3
        · exact Or.inr (Or.inr (Or.inl h3))
        · exact Or.inr (Or.inr (Or.inr (Or.inl h3)))
        · exact Or.inr (Or.inr (Or.inr (Or.inr h3)))

theorem bare_chars_no_open (a b : NumLit) (ha : a.wf) (hb : b.wf) (c : Char)
    (hc : c ∈ bareInput a b) :
    c ≠ '[' ∧ c ≠ '(' ∧ ciCh c 'G' = false ∧ ciCh c 'L' = false := by
  rcases bareInput_chars a b ha hb c hc with h | h | h | h | h
  · subst h; exact ⟨by decide, by decide, by decide, by decide⟩
  · subst h; exact ⟨by decide, by decide, by decide, by decide⟩
  · subst h; exact ⟨by decide, by decide, by decide, by decide⟩
  · subst h; exact ⟨by decide, by decide, by decide, by decide⟩
  · refine ⟨?_, ?_, digit_ci_false c 'G' h (by decide), digit_ci_false c 'L' h (by decide)⟩
    · intro he; rw [he] at h; exact absurd h (by decide)
    · intro he; rw [he] at h; exact absurd h (by decide)

theorem append_head_not_ws (b : NumLit) (hb : b.wf) (r1 : Str) :
    ∀ c t, b.render ++ r1 = c :: t → isWsCh c = false := by
  intro c t h
  cases hB : b.render with
  | nil => exact absurd hB (NumLit.render_ne_nil b hb)
  | cons c0 t0 =>
    rw [hB, List.cons_append] at h
    injection h with h1 _
    rw [← h1]
    exact NumLit.render_head_not_ws b hb c0 t0 hB

theorem matchBare_pos (a b : NumLit) (ha : a.wf) (hb : b.wf) (r1 : Str)
    (hr1 : ∀ c t, r1 = c :: t → c.isDigit = false ∧ c ≠ '.') :
    matchBare (bareInput a b ++ r1) = some ⟨bareInput a b, .two a.render b.render, r1⟩ := by
  have he : bareInput a b ++ r1 = a.render ++ (',' :: ' ' :: (b.render ++ r1)) := by
    rw [bareInput]
    simp
  rw [he, matchBare_eq]
  rw [matchNum_render a ha (',' :: ' ' :: (b.render ++ r1))
    (by intro c t h; injection h with h1 _; rw [← h1]; exact ⟨by decide, by decide⟩)]
  show bareCont a.render (',' :: ' ' :: (b.render ++ r1)) = _
  simp only [bareCont]
  have hW : munchWs (' ' :: (b.render ++ r1)) = ([' '], b.render ++ r1) :=
    munchWs_of_ws [' '] (b.render ++ r1)
      (by intro c hc; rcases List.mem_singleton.mp hc with h; rw [h]; decide)
      (append_head_not_ws b hb r1)
  simp only [hW]
  rw [matchNum_render b hb r1 hr1]
  rw [bareInput]
  simp

theorem matchBracket_pos (a b : NumLit) (ha : a.wf) (hb : b.wf) :
    matchBracket (bracketInput a b) = some ⟨bracketInput a b, .two a.render b.render, []⟩ := by
  have he : bareInput a b ++ [']'] = a.render ++ (',' :: ' ' :: (b.render ++ [']'])) := by
    rw [bareInput]
    simp
  have hA : matchNum (a.render ++ (',' :: ' ' :: (b.render ++ [']']))) =
      some (a.render, ',' :: ' ' :: (b.render ++ [']'])) :=
    matchNum_render a ha _
      (by intro c t h; injection h with h1 _; rw [← h1]; exact ⟨by decide, by decide⟩)
  have hW : munchWs (' ' :: (b.render ++ [']'])) = ([' '], b.render ++ [']']) :=
    munchWs_of_ws [' '] (b.render ++ [']'])
      (by intro c hc; rcases List.mem_singleton.mp hc with h; rw [h]; decide)
      (append_head_not_ws b hb [']'])
  have hN : matchNum (b.render ++ [']']) = some (b.render, [']']) :=
    matchNum_render b hb [']']
      (by intro c t h; injection h with h1 _; rw [← h1]; exact ⟨by decide, by decide⟩)
  rw [bracketInput, he]
  simp only [matchBracket, hA, hW, hN]
  simp

theorem matchParen_pos (a b : NumLit) (ha : a.wf) (hb : b.wf) :
    matchParen (parenInput a b) = some ⟨parenInput a b, .two a.render b.render, []⟩ := by
  have he : bareInput a b ++ [')'] = a.render ++ (',' :: ' ' :: (b.render ++ [')'])) := by
    rw [bareInput]
    simp
  have hA : matchNum (a.render ++ (',' :: ' ' :: (b.render ++ [')']))) =
      some (a.render, ',' :: ' ' :: (b.render ++ [')'])) :=
    matchNum_render a ha _
      (by intro c t h; injection h with h1 _; rw [← h1]; exact ⟨by decide, by decide⟩)
  have hW : munchWs (' ' :: (b.render ++ [')'])) = ([' '], b.render ++ [')']) :=
    munchWs_of_ws [' '] (b.render ++ [')'])
      (by intro c hc; rcases List.mem_singleton.mp hc with h; rw [h]; decide)
      (append_head_not_ws b hb [')'])
  have hN : matchNum (b.render ++ [')']) = some (b.render, [')']) :=
    matchNum_render b hb [')']
      (by intro c t h; injection h with h1 _; rw [← h1]; exact ⟨by decide, by decide⟩)
  rw [parenInput, he]
  simp only [matchParen, hA, hW, hN]
  simp

theorem matchGps_pos (a b : NumLit) (ha : a.wf) (hb : b.wf) :
    matchGps (gpsInput a b) = some ⟨gpsInput a b, .two a.render b.render, []⟩ := by
  have hW0 : munchWs (' ' :: bareInput a b) = ([' '], bareInput a b) := by
    apply munchWs_of_ws [' '] (bareInput a b)
      (by intro c hc; rcases List.mem_singleton.mp hc with h; rw [h]; decide)
    intro c t h
    rw [bareInput] at h
    exact append_head_not_ws a ha (',' :: ' ' :: b.render) c t h
  have hA : matchNum (bareInput a b) = some (a.render, ',' :: ' ' :: b.render) := by
    rw [bareInput]
    exact matchNum_render a ha _
      (by intro c t h; injection h with h1 _; rw [← h1]; exact ⟨by decide, by decide⟩)
  have hW : munchWs (' ' :: b.render) = ([' '], b.render) := by
    apply munchWs_of_ws [' '] b.render
      (by intro c hc; rcases List.mem_singleton.mp hc with h; rw [h]; decide)
    intro c t h
    exact NumLit.render_head_not_ws b hb c t h
  have hN : matchNum b.render = some (b.render, []) := by
    have h := matchNum_render b hb [] (by intro c t h; simp at h)
    simpa using h
  rw [gpsInput]
  simp only [matchGps, hW0, hA, hW, hN]
  rw [if_pos (by decide)]
  rw [bareInput]
  simp

theorem matchLocation_pos (a b : NumLit) (ha : a.wf) (hb : b.wf) :
    matchLocation (locationInput a b) = some ⟨locationInput a b, .two a.render b.render, []⟩ := by
  have hW0 : munchWs (' ' :: bareInput a b) = ([' '], bareInput a b) := by
    apply munchWs_of_ws [' '] (bareInput a b)
      (by intro c hc; rcases List.mem_singleton.mp hc with h; rw [h]; decide)
    intro c t h
    rw [bareInput] at h
    exact append_head_not_ws a ha (',' :: ' ' :: b.render) c t h
  have hA : matchNum (bareInput a b) = some (a.render, ',' :: ' ' :: b.render) := by
    rw [bareInput]
    exact matchNum_render a ha _
      (by intro c t h; injection h with h1 _; rw [← h1]; exact ⟨by decide, by decide⟩)
  have hW : munchWs (' ' :: b.render) = ([' '], b.render) := by
    apply munchWs_of_ws [' '] b.render
      (by intro c hc; rcases List.mem_singleton.mp hc with h; rw [h]; decide)
    intro c t h
    exact NumLit.render_head_not_ws b hb c t h
  have hN : matchNum b.render = some (b.render, []) := by
    have h := matchNum_render b hb [] (by intro c t h; simp at h)
    simpa using h
  rw [locationInput]
  simp only [matchLocation, hW0, hA, hW, hN]
  rw [if_pos (by decide)]
  rw [bareInput]
  simp

theorem matchDegree_pos (a b : NumLit) (ha : a.wf) (hb : b.wf) (h1 h2 : Char)
    (hns : isNSCh h1 = true) (hew : isEWCh h2 = true) :
    matchDegree (degreeInput a b h1 h2) =
      some ⟨degreeInput a b h1 h2, .four a.core h1 b.core h2, []⟩ := by
  have hA : matchNumCore (a.core ++ ('°' :: h1 :: ',' :: ' ' :: (b.core ++ '°' :: [h2]))) =
      some (a.core, '°' :: h1 :: ',' :: ' ' :: (b.core ++ '°' :: [h2])) :=
    matchNumCore_core a ha _
      (by intro c t h; injection h with hh _; rw [← hh]; exact ⟨by decide, by decide⟩)
  have hW1 : munchWs (h1 :: ',' :: ' ' :: (b.core ++ '°' :: [h2])) =
      ([], h1 :: ',' :: ' ' :: (b.core ++ '°' :: [h2])) := by
    have hws := (isNSCh_props h1 hns).2.2.2.2.1
    have := munchWs_of_ws [] (h1 :: ',' :: ' ' :: (b.core ++ '°' :: [h2]))
      (by intro c hc; simp at hc)
      (by intro c t h; injection h with hh _; rw [← hh]; exact hws)
    simpa using this
  have hW2 : munchWs (',' :: ' ' :: (b.core ++ '°' :: [h2])) =
      ([], ',' :: ' ' :: (b.core ++ '°' :: [h2])) := by
    have := munchWs_of_ws [] (',' :: ' ' :: (b.core ++ '°' :: [h2]))
      (by intro c hc; simp at hc)
      (by intro c t h; injection h with hh _; rw [← hh]; decide)
    simpa using this
  have hW3 : munchWs (' ' :: (b.core ++ '°' :: [h2])) = ([' '], b.core ++ '°' :: [h2]) := by
    apply munchWs_of_ws [' '] (b.core ++ '°' :: [h2])
      (by intro c hc; rcases List.mem_singleton.mp hc with h; rw [h]; decide)
    intro c t h
    cases hB : b.core with
    | nil => exact absurd hB (NumLit.core_ne_nil b hb)
    | cons c0 t0 =>
      rw [hB, List.cons_append] at h
      injection h with hh _
      rw [← hh]
      exact NumLit.core_head_not_ws b hb c0 t0 hB
  have hB : matchNumCore (b.core ++ '°' :: [h2]) = some (b.core, '°' :: [h2]) :=
    matchNumCore_core b hb _
      (by intro c t h; injection h with hh _; rw [← hh]; exact ⟨by decide, by decide⟩)
  have hW4 : munchWs [h2] = ([], [h2]) := by
    have hws := (isEWCh_props h2 hew).2.2.2.2.1
    have := munchWs_of_ws [] [h2]
      (by intro c hc; simp at hc)
      (by intro c t h; injection h with hh _; rw [← hh]; exact hws)
    simpa using this
  rw [degreeInput, matchDegree_eq]
  rw [hA]
  show degreeCont a.core ('°' :: h1 :: ',' :: ' ' :: (b.core ++ '°' :: [h2])) = _
  simp only [degreeCont, hW1, hW2, hW3, hB, hW4, hns, hew]
  simp

theorem core_render_suffix_rest (n : NumLit) (hwf : n.wf) (u : Str) (hu : u <:+ n.render)
    (r0 : Str) (hr0 : ∀ c t, r0 = c :: t → c.isDigit = false ∧ c ≠ '.') :
    ∀ x r, matchNumCore (u ++ r0) = some (x, r) → r = r0 := by
  by_cases hn : n.neg
  · rw [show n.render = '-' :: n.core from by simp [NumLit.render, hn]] at hu
    rcases List.suffix_cons_iff.mp hu with h2 | h2
    · subst h2
      intro x r h
      rw [List.cons_append, matchNumCore_head '-' _ (by decide)] at h
      exact absurd h (by simp)
    · exact core_suffix_rest n hwf u h2 r0 hr0
  · rw [show n.render = n.core from by simp [NumLit.render, hn]] at hu
    exact core_suffix_rest n hwf u hu r0 hr0

theorem degree_none_bare_ctx (a b : NumLit) (ha : a.wf) (hb : b.wf) (r1 : Str)
    (hr1 : ∀ c ∈ r1, c.isDigit = false ∧ c ≠ '.' ∧ c ≠ '°' ∧ isWsCh c = false ∧
      isNSCh c = false) :
    ∀ t, t <:+ bareInput a b ++ r1 → matchDegree t = none := by
  have hr1h : ∀ c t2, r1 = c :: t2 → c.isDigit = false ∧ c ≠ '.' := by
    intro c t2 h
    have := hr1 c (by rw [h]; simp)
    exact ⟨this.1, this.2.1⟩
  intro t ht
  rw [show bareInput a b ++ r1 = a.render ++ (',' :: ' ' :: (b.render ++ r1)) from by
    rw [bareInput]; simp] at ht
  rcases suffix_append_cases t a.render (',' :: ' ' :: (b.render ++ r1)) ht with
    h1 | ⟨u, hu1, hu2, hu3⟩
  · rcases List.suffix_cons_iff.mp h1 with h2 | h2
    · subst h2
      exact matchDegree_head ',' _ (by decide)
    · rcases List.suffix_cons_iff.mp h2 with h3 | h3
      · subst h3
        exact matchDegree_head ' ' _ (by decide)
      · rcases suffix_append_cases t b.render r1 h3 with h4 | ⟨u, hu1, hu2, hu3⟩
        · cases h5 : t with
          | nil => exact matchDegree_nil
          | cons c t2 =>
            have hmem : c ∈ r1 := h4.subset (by rw [h5]; simp)
            exact matchDegree_head c t2 (hr1 c hmem).1
        · subst hu2
          apply matchDegree_none_of_cont
          intro x r h
          have hr := core_render_suffix_rest b hb u hu3 r1 hr1h x r h
          subst hr
          cases h5 : r with
          | nil => exact degreeCont_nil x
          | cons c t2 =>
            have hmem : c ∈ r := by rw [h5]; simp
            exact degreeCont_head x c t2 (hr1 c hmem).2.2.1 (hr1 c hmem).2.2.2.1
              (hr1 c hmem).2.2.2.2
  · subst hu2
    apply matchDegree_none_of_cont
    intro x r h
    have hr := core_render_suffix_rest a ha u hu3 (',' :: ' ' :: (b.render ++ r1))
      (by intro c t2 hh; injection hh with hh1 _; rw [← hh1]; exact ⟨by decide, by decide⟩)
      x r h
    subst hr
    exact degreeCont_head x ',' _ (by decide) (by decide) (by decide)

theorem bare_none_degree (a b : NumLit) (ha : a.wf) (hb : b.wf) (h1 h2 : Char)
    (hns : isNSCh h1 = true) (hew : isEWCh h2 = true) :
    ∀ t, t <:+ degreeInput a b h1 h2 → matchBare t = none := by
  intro t ht
  rw [degreeInput] at ht
  rcases suffix_append_cases t a.core ('°' :: h1 :: ',' :: ' ' :: (b.core ++ '°' :: [h2])) ht
    with hc1 | ⟨u, hu1, hu2, hu3⟩
  · rcases List.suffix_cons_iff.mp hc1 with hc2 | hc2
    · subst hc2
      exact matchBare_head '°' _ (by decide) (by decide)
    · rcases List.suffix_cons_iff.mp hc2 with hc3 | hc3
      · subst hc3
        exact matchBare_head h1 _ (isNSCh_props h1 hns).1 (isNSCh_props h1 hns).2.1
      · rcases List.suffix_cons_iff.mp hc3 with hc4 | hc4
        · subst hc4
          exact matchBare_head ',' _ (by decide) (by decide)
        · rcases List.suffix_cons_iff.mp hc4 with hc5 | hc5
          · subst hc5
            exact matchBare_head ' ' _ (by decide) (by decide)
          · rcases suffix_append_cases t b.core ('°' :: [h2]) hc5 with hc6 | ⟨u, hu1, hu2, hu3⟩
            · rcases List.suffix_cons_iff.mp hc6 with hc7 | hc7
              · subst hc7
                exact matchBare_head '°' _ (by decide) (by decide)
              · rcases List.suffix_cons_iff.mp hc7 with hc8 | hc8
                · subst hc8
                  exact matchBare_head h2 _ (isEWCh_props h2 hew).1 (isEWCh_props h2 hew).2.1
                · rw [List.suffix_nil.mp hc8]
                  exact matchBare_nil
            · subst hu2
              apply matchBare_none_of_cont
              intro x r h
              have hr := matchNum_core_suffix_rest b hb u hu3 ('°' :: [h2])
                (by intro c t2 hh; injection hh with hh1 _; rw [← hh1]
                    exact ⟨by decide, by decide, by decide⟩) x r h
              subst hr
              exact bareCont_head x '°' [h2] (by decide)
  · subst hu2
    apply matchBare_none_of_cont
    intro x r h
    have hr := matchNum_core_suffix_rest a ha u hu3
      ('°' :: h1 :: ',' :: ' ' :: (b.core ++ '°' :: [h2]))
      (by intro c t2 hh; injection hh with hh1 _; rw [← hh1]
          exact ⟨by decide, by decide, by decide⟩) x r h
    subst hr
    exact bareCont_head x '°' _ (by decide)

theorem bracketInput_chars_no (a b : NumLit) (ha : a.wf) (hb : b.wf) (c : Char)
    (hc : c ∈ bracketInput a b) :
    c ≠ '(' ∧ ciCh c 'G' = false ∧ ciCh c 'L' = false := by
  rw [bracketInput] at hc
  rcases List.mem_cons.mp hc with h | h
  · subst h; exact ⟨by decide, by decide, by decide⟩
  · rcases List.mem_append.mp h with h2 | h2
    · have h3 := bare_chars_no_open a b ha hb c h2
      exact ⟨h3.2.1, h3.2.2.1, h3.2.2.2⟩
    · rcases List.mem_singleton.mp h2 with h3
      subst h3; exact ⟨by decide, by decide, by decide⟩

theorem parenInput_chars_no (a b : NumLit) (ha : a.wf) (hb : b.wf) (c : Char)
    (hc : c ∈ parenInput a b) :
    c ≠ '[' ∧ ciCh c 'G' = false ∧ ciCh c 'L' = false := by
  rw [parenInput] at hc
  rcases List.mem_cons.mp hc with h | h
  · subst h; exact ⟨by decide, by decide, by decide⟩
  · rcases List.mem_append.mp h with h2 | h2
    · have h3 := bare_chars_no_open a b ha hb c h2
      exact ⟨h3.1, h3.2.2.1, h3.2.2.2⟩
    · rcases List.mem_singleton.mp h2 with h3
      subst h3; exact ⟨by decide, by decide, by decide⟩

theorem gpsInput_chars_no (a b : NumLit) (ha : a.wf) (hb : b.wf) (c : Char)
    (hc : c ∈ gpsInput a b) :
    c ≠ '[' ∧ c ≠ '(' ∧ ciCh c 'L' = false := by
  rw [gpsInput] at hc
  rcases List.mem_cons.mp hc with h | h
  · subst h; exact ⟨by decide, by decide, by decide⟩
  rcases List.mem_cons.mp h with h | h
  · subst h; exact ⟨by decide, by decide, by decide⟩
  rcases List.mem_cons.mp h with h | h
  · subst h; exact ⟨by decide, by decide, by decide⟩
  rcases List.mem_cons.mp h with h | h
  · subst h; exact ⟨by decide, by decide, by decide⟩
  rcases List.mem_cons.mp h with h | h
  · subst h; exact ⟨by decide, by decide, by decide⟩
  have h3 := bare_chars_no_open a b ha hb c h
  exact ⟨h3.1, h3.2.1, h3.2.2.2⟩

theorem locationInput_chars_no (a b : NumLit) (ha : a.wf) (hb : b.wf) (c : Char)
    (hc : c ∈ locationInput a b) :
    c ≠ '[' ∧ c ≠ '(' ∧ ciCh c 'G' = false := by
  rw [locationInput] at hc
  rcases List.mem_cons.mp hc with h | h
  · subst h; exact ⟨by decide, by decide, by decide⟩
  rcases List.mem_cons.mp h with h | h
  · subst h; exact ⟨by decide, by decide, by decide⟩
  rcases List.mem_cons.mp h with h | h
  · subst h; exact ⟨by decide, by decide, by decide⟩
  rcases List.mem_cons.mp h with h | h
  · subst h; exact ⟨by decide, by decide, by decide⟩
  rcases List.mem_cons.mp h with h | h
  · subst h; exact ⟨by decide, by decide, by decide⟩
  rcases List.mem_cons.mp h with h | h
  · subst h; exact ⟨by decide, by decide, by decide⟩
  rcases List.mem_cons.mp h with h | h
  · subst h; exact ⟨by decide, by decide, by decide⟩
  rcases List.mem_cons.mp h with h | h
  · subst h; exact ⟨by decide, by decide, by decide⟩
  rcases List.mem_cons.mp h with h | h
  · subst h; exact ⟨by decide, by decide, by decide⟩
  rcases List.mem_cons.mp h with h | h
  · subst h; exact ⟨by decide, by decide, by decide⟩
  have h3 := bare_chars_no_open a b ha hb c h
  exact ⟨h3.1, h3.2.1, h3.2.2.1⟩

theorem coreChars_no (n : NumLit) (hwf : n.wf) (c : Char) (hc : c ∈ n.core) :
    c ≠ '[' ∧ c ≠ '(' ∧ ciCh c 'G' = false ∧ ciCh c 'L' = false := by
  rcases NumLit.core_chars n hwf c hc with h | h
  · subst h; exact ⟨by decide, by decide, by decide, by decide⟩
  · refine ⟨?_, ?_, digit_ci_false c 'G' h (by decide), digit_ci_false c 'L' h (by decide)⟩
    · intro he; rw [he] at h; exact absurd h (by decide)
    · intro he; rw [he] at h; exact absurd h (by decide)

theorem degreeInput_chars_no (a b : NumLit) (ha : a.wf) (hb : b.wf) (h1 h2 : Char)
    (hns : isNSCh h1 = true) (hew : isEWCh h2 = true) (c : Char)
    (hc : c ∈ degreeInput a b h1 h2) :
    c ≠ '[' ∧ c ≠ '(' ∧ ciCh c 'G' = false ∧ ciCh c 'L' = false := by
  rw [degreeInput] at hc
  rcases List.mem_append.mp hc with h | h
  · exact coreChars_no a ha c h
  rcases List.mem_cons.mp h with h | h
  · subst h; exact ⟨by decide, by decide, by decide, by decide⟩
  rcases List.mem_cons.mp h with h | h
  · subst h
    have hp := isNSCh_props c hns
    exact ⟨hp.2.2.2.2.2.1, hp.2.2.2.2.2.2.1, hp.2.2.2.2.2.2.2.1, hp.2.2.2.2.2.2.2.2.1⟩
  rcases List.mem_cons.mp h with h | h
  · subst h; exact ⟨by decide, by decide, by decide, by decide⟩
  rcases List.mem_cons.mp h with h | h
  · subst h; exact ⟨by decide, by decide, by decide, by decide⟩
  rcases List.mem_append.mp h with h | h
  · exact coreChars_no b hb c h
  rcases List.mem_cons.mp h with h | h
  · subst h; exact ⟨by decide, by decide, by decide, by decide⟩
  rcases List.mem_singleton.mp h with h
  subst h
  have hp := isEWCh_props c hew
  exact ⟨hp.2.2.2.2.2.2.1, hp.2.2.2.2.2.2.2.1, hp.2.2.2.2.2.2.2.2.1,
    hp.2.2.2.2.2.2.2.2.2.1⟩

theorem scan_single_self (f : Str → Option MatchRes) (v : Str) (res : MatchRes)
    (h1 : f v = some res) (h2 : ∀ t, t <:+ res.rest → f t = none) (hv : v ≠ []) :
    scanMatches f v = [res] := by
  have h := scan_single f [] v res
    (by intro w hw hne; exact absurd (List.suffix_nil.mp hw) hne) h1 h2 hv
  simpa using h

theorem bareInput_head_cases (a b : NumLit) (ha : a.wf) :
    ∀ c t, bareInput a b = c :: t → c = '-' ∨ c.isDigit = true := by
  intro c t h
  rw [bareInput] at h
  cases hA : a.render with
  | nil => exact absurd hA (NumLit.render_ne_nil a ha)
  | cons c0 t0 =>
    rw [hA, List.cons_append] at h
    injection h with h1 _
    rw [← h1]
    exact NumLit.render_head a ha c0 t0 hA

theorem bareInput_ne_nil (a b : NumLit) (ha : a.wf) : bareInput a b ≠ [] := by
  rw [bareInput]
  intro h
  exact NumLit.render_ne_nil a ha (List.append_eq_nil.mp h).1

theorem bare_ne_head (a b : NumLit) (ha : a.wf) (c : Char) (hd : c.isDigit = false)
    (hdash : c ≠ '-') : ∀ t, bareInput a b ≠ c :: t := by
  intro t h
  rcases bareInput_head_cases a b ha c t h with h1 | h1
  · exact hdash h1
  · rw [h1] at hd; exact absurd hd (by simp)

theorem scan_bracket_bracket (a b : NumLit) (ha : a.wf) (hb : b.wf) :
    scanMatches matchBracket (bracketInput a b) =
      [⟨bracketInput a b, .two a.render b.render, []⟩] := by
  apply scan_single_self matchBracket _ _ (matchBracket_pos a b ha hb)
  · intro t ht
    rw [show (⟨bracketInput a b, .two a.render b.render, []⟩ : MatchRes).rest = [] from rfl]
      at ht
    rw [List.suffix_nil.mp ht]
    exact matchBracket_nil
  · rw [bracketInput]
    simp

theorem scan_paren_bracket (a b : NumLit) (ha : a.wf) (hb : b.wf) :
    scanMatches matchParen (bracketInput a b) = [] := by
  apply scan_none_of_chars matchParen _ matchParen_nil
  intro c t hc
  exact matchParen_head c t (bracketInput_chars_no a b ha hb c hc).1

theorem scan_gps_bracket (a b : NumLit) (ha : a.wf) (hb : b.wf) :
    scanMatches matchGps (bracketInput a b) = [] := by
  apply scan_none_of_chars matchGps _ matchGps_nil
  intro c t hc
  exact matchGps_head c t (bracketInput_chars_no a b ha hb c hc).2.1

theorem scan_location_bracket (a b : NumLit) (ha : a.wf) (hb : b.wf) :
    scanMatches matchLocation (bracketInput a b) = [] := by
  apply scan_none_of_chars matchLocation _ matchLocation_nil
  intro c t hc
  exact matchLocation_head c t (bracketInput_chars_no a b ha hb c hc).2.2

theorem scan_degree_bracket (a b : NumLit) (ha : a.wf) (hb : b.wf) :
    scanMatches matchDegree (bracketInput a b) = [] := by
  apply scan_none
  intro t ht
  rw [bracketInput] at ht
  rcases List.suffix_cons_iff.mp ht with h1 | h1
  · subst h1
    exact matchDegree_head '[' _ (by decide)
  · exact degree_none_bare_ctx a b ha hb [']']
      (by intro c hc; rcases List.mem_singleton.mp hc with h; rw [h]
          exact ⟨by decide, by decide, by decide, by decide, by decide⟩) t h1

theorem scan_bare_bracket (a b : NumLit) (ha : a.wf) (hb : b.wf) :
    scanMatches matchBare (bracketInput a b) =
      [⟨bareInput a b, .two a.render b.render, [']']⟩] := by
  have h := scan_single matchBare ['['] (bareInput a b ++ [']'])
    ⟨bareInput a b, .two a.render b.render, [']']⟩
    (by intro w hw hne
        rcases List.suffix_cons_iff.mp hw with h1 | h1
        · subst h1
          exact matchBare_head '[' _ (by decide) (by decide)
        · exact absurd (List.suffix_nil.mp h1) hne)
    (matchBare_pos a b ha hb [']']
      (by intro c t h; injection h with h1 _; rw [← h1]; exact ⟨by decide, by decide⟩))
    (by intro t ht
        rw [show (⟨bareInput a b, .two a.render b.render, [']']⟩ : MatchRes).rest = [']']
          from rfl] at ht
        rcases List.suffix_cons_iff.mp ht with h1 | h1
        · subst h1
          exact matchBare_head ']' _ (by decide) (by decide)
        · rw [List.suffix_nil.mp h1]
          exact matchBare_nil)
    (by simp)
  rw [show (['['] : Str) ++ (bareInput a b ++ [']']) = bracketInput a b from by
    rw [bracketInput]; simp] at h
  exact h

theorem dedup_nil (seen : List Str) : dedupLoop [] seen = [] := rfl

theorem dedup_cons_new (m : MatchRes) (ms : List MatchRes) (seen : List Str)
    (hnew : m.raw ∉ seen)
    (hv : isValidCoordinate (coordOfCaps m.caps).1 (coordOfCaps m.caps).2 = true) :
    dedupLoop (m :: ms) seen =
      ⟨(coordOfCaps m.caps).1, (coordOfCaps m.caps).2, m.raw⟩ ::
        dedupLoop ms (m.raw :: seen) := by
  rw [dedupLoop, if_neg hnew, if_pos hv]

theorem extract_bracket (a b : NumLit) (ha : a.wf) (hb : b.wf)
    (hv : isValidCoordinate (parseNum a.render) (parseNum b.render) = true) :
    extractCoordinates (bracketInput a b) =
      [⟨parseNum a.render, parseNum b.render, bracketInput a b⟩,
       ⟨parseNum a.render, parseNum b.render, bareInput a b⟩] := by
  rw [extractCoordinates]
  have hall : allMatches (bracketInput a b) =
      [⟨bracketInput a b, .two a.render b.render, []⟩,
       ⟨bareInput a b, .two a.render b.render, [']']⟩] := by
    rw [allMatches, coordinatePatterns]
    simp only [List.map_cons, List.map_nil]
    rw [scan_bracket_bracket a b ha hb, scan_paren_bracket a b ha hb,
        scan_bare_bracket a b ha hb, scan_degree_bracket a b ha hb,
        scan_gps_bracket a b ha hb, scan_location_bracket a b ha hb]
    simp
  rw [hall]
  rw [dedup_cons_new ⟨bracketInput a b, .two a.render b.render, []⟩
    [⟨bareInput a b, .two a.render b.render, [']']⟩] [] (by simp) hv]
  rw [dedup_cons_new ⟨bareInput a b, .two a.render b.render, [']']⟩ []
    [bracketInput a b]
    (by simp only [List.mem_singleton]
        show ¬bareInput a b = bracketInput a b
        rw [bracketInput]
        exact bare_ne_head a b ha '[' (by decide) (by decide) _) hv]
  rw [dedup_nil]
  rfl

theorem scan_paren_paren (a b : NumLit) (ha : a.wf) (hb : b.wf) :
    scanMatches matchParen (parenInput a b) =
      [⟨parenInput a b, .two a.render b.render, []⟩] := by
  apply scan_single_self matchParen _ _ (matchParen_pos a b ha hb)
  · intro t ht
    rw [show (⟨parenInput a b, .two a.render b.render, []⟩ : MatchRes).rest = [] from rfl] at ht
    rw [List.suffix_nil.mp ht]
    exact matchParen_nil
  · rw [parenInput]
    simp

theorem scan_bracket_paren (a b : NumLit) (ha : a.wf) (hb : b.wf) :
    scanMatches matchBracket (parenInput a b) = [] := by
  apply scan_none_of_chars matchBracket _ matchBracket_nil
  intro c t hc
  exact matchBracket_head c t (parenInput_chars_no a b ha hb c hc).1

theorem scan_gps_paren (a b : NumLit) (ha : a.wf) (hb : b.wf) :
    scanMatches matchGps (parenInput a b) = [] := by
  apply scan_none_of_chars matchGps _ matchGps_nil
  intro c t hc
  exact matchGps_head c t (parenInput_chars_no a b ha hb c hc).2.1

theorem scan_location_paren (a b : NumLit) (ha : a.wf) (hb : b.wf) :
    scanMatches matchLocation (parenInput a b) = [] := by
  apply scan_none_of_chars matchLocation _ matchLocation_nil
  intro c t hc
  exact matchLocation_head c t (parenInput_chars_no a b ha hb c hc).2.2

theorem scan_degree_paren (a b : NumLit) (ha : a.wf) (hb : b.wf) :
    scanMatches matchDegree (parenInput a b) = [] := by
  apply scan_none
  intro t ht
  rw [parenInput] at ht
  rcases List.suffix_cons_iff.mp ht with h1 | h1
  · subst h1
    exact matchDegree_head '(' _ (by decide)
  · exact degree_none_bare_ctx a b ha hb [')']
      (by intro c hc; rcases List.mem_singleton.mp hc with h; rw [h]
          exact ⟨by decide, by decide, by decide, by decide, by decide⟩) t h1

theorem scan_bare_paren (a b : NumLit) (ha : a.wf) (hb : b.wf) :
    scanMatches matchBare (parenInput a b) =
      [⟨bareInput a b, .two a.render b.render, [')']⟩] := by
  have h := scan_single matchBare ['('] (bareInput a b ++ [')'])
    ⟨bareInput a b, .two a.render b.render, [')']⟩
    (by intro w hw hne
        rcases List.suffix_cons_iff.mp hw with h1 | h1
        · subst h1
          exact matchBare_head '(' _ (by decide) (by decide)
        · exact absurd (List.suffix_nil.mp h1) hne)
    (matchBare_pos a b ha hb [')']
      (by intro c t h; injection h with h1 _; rw [← h1]; exact ⟨by decide, by decide⟩))
    (by intro t ht
        rw [show (⟨bareInput a b, .two a.render b.render, [')']⟩ : MatchRes).rest = [')']
          from rfl] at ht
        rcases List.suffix_cons_iff.mp ht with h1 | h1
        · subst h1
          exact matchBare_head ')' _ (by decide) (by decide)
        · rw [List.suffix_nil.mp h1]
          exact matchBare_nil)
    (by simp)
  rw [show (['('] : Str) ++ (bareInput a b ++ [')']) = parenInput a b from by
    rw [parenInput]; simp] at h
  exact h

theorem extract_paren (a b : NumLit) (ha : a.wf) (hb : b.wf)
    (hv : isValidCoordinate (parseNum a.render) (parseNum b.render) = true) :
    extractCoordinates (parenInput a b) =
      [⟨parseNum a.render, parseNum b.render, parenInput a b⟩,
       ⟨parseNum a.render, parseNum b.render, bareInput a b⟩] := by
  rw [extractCoordinates]
  have hall : allMatches (parenInput a b) =
      [⟨parenInput a b, .two a.render b.render, []⟩,
       ⟨bareInput a b, .two a.render b.render, [')']⟩] := by
    rw [allMatches, coordinatePatterns]
    simp only [List.map_cons, List.map_nil]
    rw [scan_bracket_paren a b ha hb, scan_paren_paren a b ha hb,
        scan_bare_paren a b ha hb, scan_degree_paren a b ha hb,
        scan_gps_paren a b ha hb, scan_location_paren a b ha hb]
    simp
  rw [hall]
  rw [dedup_cons_new ⟨parenInput a b, .two a.render b.render, []⟩
    [⟨bareInput a b, .two a.render b.render, [')']⟩] [] (by simp) hv]
  rw [dedup_cons_new ⟨bareInput a b, .two a.render b.render, [')']⟩ []
    [parenInput a b]
    (by simp only [List.mem_singleton]
        show ¬bareInput a b = parenInput a b
        rw [parenInput]
        exact bare_ne_head a b ha '(' (by decide) (by decide) _) hv]
  rw [dedup_nil]
  rfl

theorem matchBare_bare (a b : NumLit) (ha : a.wf) (hb : b.wf) :
    matchBare (bareInput a b) = some ⟨bareInput a b, .two a.render b.render, []⟩ := by
  have h := matchBare_pos a b ha hb [] (by intro c t h; simp at h)
  simpa using h

theorem scan_bare_bare (a b : NumLit) (ha : a.wf) (hb : b.wf) :
    scanMatches matchBare (bareInput a b) =
      [⟨bareInput a b, .two a.render b.render, []⟩] := by
  apply scan_single_self matchBare _ _ (matchBare_bare a b ha hb)
  · intro t ht
    rw [show (⟨bareInput a b, .two a.render b.render, []⟩ : MatchRes).rest = [] from rfl] at ht
    rw [List.suffix_nil.mp ht]
    exact matchBare_nil
  · exact bareInput_ne_nil a b ha

theorem scan_bracket_bare (a b : NumLit) (ha : a.wf) (hb : b.wf) :
    scanMatches matchBracket (bareInput a b) = [] := by
  apply scan_none_of_chars matchBracket _ matchBracket_nil
  intro c t hc
  exact matchBracket_head c t (bare_chars_no_open a b ha hb c hc).1

theorem scan_paren_bare (a b : NumLit) (ha : a.wf) (hb : b.wf) :
    scanMatches matchParen (bareInput a b) = [] := by
  apply scan_none_of_chars matchParen _ matchParen_nil
  intro c t hc
  exact matchParen_head c t (bare_chars_no_open a b ha hb c hc).2.1

theorem scan_gps_bare (a b : NumLit) (ha : a.wf) (hb : b.wf) :
    scanMatches matchGps (bareInput a b) = [] := by
  apply scan_none_of_chars matchGps _ matchGps_nil
  intro c t hc
  exact matchGps_head c t (bare_chars_no_open a b ha hb c hc).2.2.1

theorem scan_location_bare (a b : NumLit) (ha : a.wf) (hb : b.wf) :
    scanMatches matchLocation (bareInput a b) = [] := by
  apply scan_none_of_chars matchLocation _ matchLocation_nil
  intro c t hc
  exact matchLocation_head c t (bare_chars_no_open a b ha hb c hc).2.2.2

theorem scan_degree_bare (a b : NumLit) (ha : a.wf) (hb : b.wf) :
    scanMatches matchDegree (bareInput a b) = [] := by
  apply scan_none
  intro t ht
  refine degree_none_bare_ctx a b ha hb [] (by intro c hc; simp at hc) t ?_
  rw [List.append_nil]
  exact ht

theorem extract_bare (a b : NumLit) (ha : a.wf) (hb : b.wf)
    (hv : isValidCoordinate (parseNum a.render) (parseNum b.render) = true) :
    extractCoordinates (bareInput a b) =
      [⟨parseNum a.render, parseNum b.render, bareInput a b⟩] := by
  rw [extractCoordinates]
  have hall : allMatches (bareInput a b) =
      [⟨bareInput a b, .two a.render b.render, []⟩] := by
    rw [allMatches, coordinatePatterns]
    simp only [List.map_cons, List.map_nil]
    rw [scan_bracket_bare a b ha hb, scan_paren_bare a b ha hb,
        scan_bare_bare a b ha hb, scan_degree_bare a b ha hb,
        scan_gps_bare a b ha hb, scan_location_bare a b ha hb]
    simp
  rw [hall]
  rw [dedup_cons_new ⟨bareInput a b, .two a.render b.render, []⟩ [] [] (by simp) hv]
  rw [dedup_nil]
  rfl

theorem scan_gps_gps (a b : NumLit) (ha : a.wf) (hb : b.wf) :
    scanMatches matchGps (gpsInput a b) = [⟨gpsInput a b, .two a.render b.render, []⟩] := by
  apply scan_single_self matchGps _ _ (matchGps_pos a b ha hb)
  · intro t ht
    rw [show (⟨gpsInput a b, .two a.render b.render, []⟩ : MatchRes).rest = [] from rfl] at ht
    rw [List.suffix_nil.mp ht]
    exact matchGps_nil
  · rw [gpsInput]
    simp

theorem scan_bracket_gps (a b : NumLit) (ha : a.wf) (hb : b.wf) :
    scanMatches matchBracket (gpsInput a b) = [] := by
  apply scan_none_of_chars matchBracket _ matchBracket_nil
  intro c t hc
  exact matchBracket_head c t (gpsInput_chars_no a b ha hb c hc).1

theorem scan_paren_gps (a b : NumLit) (ha : a.wf) (hb : b.wf) :
    scanMatches matchParen (gpsInput a b) = [] := by
  apply scan_none_of_chars matchParen _ matchParen_nil
  intro c t hc
  exact matchParen_head c t (gpsInput_chars_no a b ha hb c hc).2.1

theorem scan_location_gps (a b : NumLit) (ha : a.wf) (hb : b.wf) :
    scanMatches matchLocation (gpsInput a b) = [] := by
  apply scan_none_of_chars matchLocation _ matchLocation_nil
  intro c t hc
  exact matchLocation_head c t (gpsInput_chars_no a b ha hb c hc).2.2

theorem scan_degree_gps (a b : NumLit) (ha : a.wf) (hb : b.wf) :
    scanMatches matchDegree (gpsInput a b) = [] := by
  apply scan_none
  intro t ht
  rw [gpsInput] at ht
  rcases List.suffix_cons_iff.mp ht with h1 | h1
  · subst h1; exact matchDegree_head 'G' _ (by decide)
  rcases List.suffix_cons_iff.mp h1 with h1 | h1
  · subst h1; exact matchDegree_head 'P' _ (by decide)
  rcases List.suffix_cons_iff.mp h1 with h1 | h1
  · subst h1; exact matchDegree_head 'S' _ (by decide)
  rcases List.suffix_cons_iff.mp h1 with h1 | h1
  · subst h1; exact matchDegree_head ':' _ (by decide)
  rcases List.suffix_cons_iff.mp h1 with h1 | h1
  · subst h1; exact matchDegree_head ' ' _ (by decide)
  refine degree_none_bare_ctx a b ha hb [] (by intro c hc; simp at hc) t ?_
  rw [List.append_nil]
  exact h1

theorem scan_bare_gps (a b : NumLit) (ha : a.wf) (hb : b.wf) :
    scanMatches matchBare (gpsInput a b) =
      [⟨bareInput a b, .two a.render b.render, []⟩] := by
  have h := scan_single matchBare ['G', 'P', 'S', ':', ' '] (bareInput a b)
    ⟨bareInput a b, .two a.render b.render, []⟩
    (by intro w hw hne
        rcases List.suffix_cons_iff.mp hw with h1 | h1
        · subst h1; exact matchBare_head 'G' _ (by decide) (by decide)
        rcases List.suffix_cons_iff.mp h1 with h1 | h1
        · subst h1; exact matchBare_head 'P' _ (by decide) (by decide)
        rcases List.suffix_cons_iff.mp h1 with h1 | h1
        · subst h1; exact matchBare_head 'S' _ (by decide) (by decide)
        rcases List.suffix_cons_iff.mp h1 with h1 | h1
        · subst h1; exact matchBare_head ':' _ (by decide) (by decide)
        rcases List.suffix_cons_iff.mp h1 with h1 | h1
        · subst h1; exact matchBare_head ' ' _ (by decide) (by decide)
        exact absurd (List.suffix_nil.mp h1) hne)
    (matchBare_bare a b ha hb)
    (by intro t ht
        rw [show (⟨bareInput a b, .two a.render b.render, []⟩ : MatchRes).rest = []
          from rfl] at ht
        rw [List.suffix_nil.mp ht]
        exact matchBare_nil)
    (bareInput_ne_nil a b ha)
  rw [show (['G', 'P', 'S', ':', ' '] : Str) ++ bareInput a b = gpsInput a b from by
    rw [gpsInput]; simp] at h
  exact h

theorem extract_gps (a b : NumLit) (ha : a.wf) (hb : b.wf)
    (hv : isValidCoordinate (parseNum a.render) (parseNum b.render) = true) :
    extractCoordinates (gpsInput a b) =
      [⟨parseNum a.render, parseNum b.render, bareInput a b⟩,
       ⟨parseNum a.render, parseNum b.render, gpsInput a b⟩] := by
  rw [extractCoordinates]
  have hall : allMatches (gpsInput a b) =
      [⟨bareInput a b, .two a.render b.render, []⟩,
       ⟨gpsInput a b, .two a.render b.render, []⟩] := by
    rw [allMatches, coordinatePatterns]
    simp only [List.map_cons, List.map_nil]
    rw [scan_bracket_gps a b ha hb, scan_paren_gps a b ha hb,
        scan_bare_gps a b ha hb, scan_degree_gps a b ha hb,
        scan_gps_gps a b ha hb, scan_location_gps a b ha hb]
    simp
  rw [hall]
  rw [dedup_cons_new ⟨bareInput a b, .two a.render b.render, []⟩
    [⟨gpsInput a b, .two a.render b.render, []⟩] [] (by simp) hv]
  rw [dedup_cons_new ⟨gpsInput a b, .two a.render b.render, []⟩ [] [bareInput a b]
    (by simp only [List.mem_singleton]
        show ¬gpsInput a b = bareInput a b
        intro h
        rw [gpsInput] at h
        exact bare_ne_head a b ha 'G' (by decide) (by decide) _ h.symm) hv]
  rw [dedup_nil]
  rfl

theorem scan_location_location (a b : NumLit) (ha : a.wf) (hb : b.wf) :
    scanMatches matchLocation (locationInput a b) =
      [⟨locationInput a b, .two a.render b.render, []⟩] := by
  apply scan_single_self matchLocation _ _ (matchLocation_pos a b ha hb)
  · intro t ht
    rw [show (⟨locationInput a b, .two a.render b.render, []⟩ : MatchRes).rest = []
      from rfl] at ht
    rw [List.suffix_nil.mp ht]
    exact matchLocation_nil
  · rw [locationInput]
    simp

theorem scan_bracket_location (a b : NumLit) (ha : a.wf) (hb : b.wf) :
    scanMatches matchBracket (locationInput a b) = [] := by
  apply scan_none_of_chars matchBracket _ matchBracket_nil
  intro c t hc
  exact matchBracket_head c t (locationInput_chars_no a b ha hb c hc).1

theorem scan_paren_location (a b : NumLit) (ha : a.wf) (hb : b.wf) :
    scanMatches matchParen (locationInput a b) = [] := by
  apply scan_none_of_chars matchParen _ matchParen_nil
  intro c t hc
  exact matchParen_head c t (locationInput_chars_no a b ha hb c hc).2.1

theorem scan_gps_location (a b : NumLit) (ha : a.wf) (hb : b.wf) :
    scanMatches matchGps (locationInput a b) = [] := by
  apply scan_none_of_chars matchGps _ matchGps_nil
  intro c t hc
  exact matchGps_head c t (locationInput_chars_no a b ha hb c hc).2.2

theorem scan_degree_location (a b : NumLit) (ha : a.wf) (hb : b.wf) :
    scanMatches matchDegree (locationInput a b) = [] := by
  apply scan_none
  intro t ht
  rw [locationInput] at ht
  rcases List.suffix_cons_iff.mp ht with h1 | h1
  · subst h1; exact matchDegree_head 'L' _ (by decide)
  rcases List.suffix_cons_iff.mp h1 with h1 | h1
  · subst h1; exact matchDegree_head 'o' _ (by decide)
  rcases List.suffix_cons_iff.mp h1 with h1 | h1
  · subst h1; exact matchDegree_head 'c' _ (by decide)
  rcases List.suffix_cons_iff.mp h1 with h1 | h1
  · subst h1; exact matchDegree_head 'a' _ (by decide)
  rcases List.suffix_cons_iff.mp h1 with h1 | h1
  · subst h1; exact matchDegree_head 't' _ (by decide)
  rcases List.suffix_cons_iff.mp h1 with h1 | h1
  · subst h1; exact matchDegree_head 'i' _ (by decide)
  rcases List.suffix_cons_iff.mp h1 with h1 | h1
  · subst h1; exact matchDegree_head 'o' _ (by decide)
  rcases List.suffix_cons_iff.mp h1 with h1 | h1
  · subst h1; exact matchDegree_head 'n' _ (by decide)
  rcases List.suffix_cons_iff.mp h1 with h1 | h1
  · subst h1; exact matchDegree_head ':' _ (by decide)
  rcases List.suffix_cons_iff.mp h1 with h1 | h1
  · subst h1; exact matchDegree_head ' ' _ (by decide)
  refine degree_none_bare_ctx a b ha hb [] (by intro c hc; simp at hc) t ?_
  rw [List.append_nil]
  exact h1

theorem scan_bare_location (a b : NumLit) (ha : a.wf) (hb : b.wf) :
    scanMatches matchBare (locationInput a b) =
      [⟨bareInput a b, .two a.render b.render, []⟩] := by
  have h := scan_single matchBare ['L', 'o', 'c', 'a', 't', 'i', 'o', 'n', ':', ' ']
    (bareInput a b) ⟨bareInput a b, .two a.render b.render, []⟩
    (by intro w hw hne
        rcases List.suffix_cons_iff.mp hw with h1 | h1
        · subst h1; exact matchBare_head 'L' _ (by decide) (by decide)
        rcases List.suffix_cons_iff.mp h1 with h1 | h1
        · subst h1; exact matchBare_head 'o' _ (by decide) (by decide)
        rcases List.suffix_cons_iff.mp h1 with h1 | h1
        · subst h1; exact matchBare_head 'c' _ (by decide) (by decide)
        rcases List.suffix_cons_iff.mp h1 with h1 | h1
        · subst h1; exact matchBare_head 'a' _ (by decide) (by decide)
        rcases List.suffix_cons_iff.mp h1 with h1 | h1
        · subst h1; exact matchBare_head 't' _ (by decide) (by decide)
        rcases List.suffix_cons_iff.mp h1 with h1 | h1
        · subst h1; exact matchBare_head 'i' _ (by decide) (by decide)
        rcases List.suffix_cons_iff.mp h1 with h1 | h1
        · subst h1; exact matchBare_head 'o' _ (by decide) (by decide)
        rcases List.suffix_cons_iff.mp h1 with h1 | h1
        · subst h1; exact matchBare_head 'n' _ (by decide) (by decide)
        rcases List.suffix_cons_iff.mp h1 with h1 | h1
        · subst h1; exact matchBare_head ':' _ (by decide) (by decide)
        rcases List.suffix_cons_iff.mp h1 with h1 | h1
        · subst h1; exact matchBare_head ' ' _ (by decide) (by decide)
        exact absurd (List.suffix_nil.mp h1) hne)
    (matchBare_bare a b ha hb)
    (by intro t ht
        rw [show (⟨bareInput a b, .two a.render b.render, []⟩ : MatchRes).rest = []
          from rfl] at ht
        rw [List.suffix_nil.mp ht]
        exact matchBare_nil)
    (bareInput_ne_nil a b ha)
  rw [show (['L', 'o', 'c', 'a', 't', 'i', 'o', 'n', ':', ' '] : Str) ++ bareInput a b =
      locationInput a b from by rw [locationInput]; simp] at h
  exact h

theorem extract_location (a b : NumLit) (ha : a.wf) (hb : b.wf)
    (hv : isValidCoordinate (parseNum a.render) (parseNum b.render) = true) :
    extractCoordinates (locationInput a b) =
      [⟨parseNum a.render, parseNum b.render, bareInput a b⟩,
       ⟨parseNum a.render, parseNum b.render, locationInput a b⟩] := by
  rw [extractCoordinates]
  have hall : allMatches (locationInput a b) =
      [⟨bareInput a b, .two a.render b.render, []⟩,
       ⟨locationInput a b, .two a.render b.render, []⟩] := by
    rw [allMatches, coordinatePatterns]
    simp only [List.map_cons, List.map_nil]
    rw [scan_bracket_location a b ha hb, scan_paren_location a b ha hb,
        scan_bare_location a b ha hb, scan_degree_location a b ha hb,
        scan_gps_location a b ha hb, scan_location_location a b ha hb]
    simp
  rw [hall]
  rw [dedup_cons_new ⟨bareInput a b, .two a.render b.render, []⟩
    [⟨locationInput a b, .two a.render b.render, []⟩] [] (by simp) hv]
  rw [dedup_cons_new ⟨locationInput a b, .two a.render b.render, []⟩ [] [bareInput a b]
    (by simp only [List.mem_singleton]
        show ¬locationInput a b = bareInput a b
        intro h
        rw [locationInput] at h
        exact bare_ne_head a b ha 'L' (by decide) (by decide) _ h.symm) hv]
  rw [dedup_nil]
  rfl

theorem scan_degree_degree (a b : NumLit) (ha : a.wf) (hb : b.wf) (h1 h2 : Char)
    (hns : isNSCh h1 = true) (hew : isEWCh h2 = true) :
    scanMatches matchDegree (degreeInput a b h1 h2) =
      [⟨degreeInput a b h1 h2, .four a.core h1 b.core h2, []⟩] := by
  apply scan_single_self matchDegree _ _ (matchDegree_pos a b ha hb h1 h2 hns hew)
  · intro t ht
    rw [show (⟨degreeInput a b h1 h2, .four a.core h1 b.core h2, []⟩ : MatchRes).rest = []
      from rfl] at ht
    rw [List.suffix_nil.mp ht]
    exact matchDegree_nil
  · rw [degreeInput]
    intro h
    exact NumLit.core_ne_nil a ha (List.append_eq_nil.mp h).1

theorem scan_bare_degree (a b : NumLit) (ha : a.wf) (hb : b.wf) (h1 h2 : Char)
    (hns : isNSCh h1 = true) (hew : isEWCh h2 = true) :
    scanMatches matchBare (degreeInput a b h1 h2) = [] := by
  apply scan_none
  exact bare_none_degree a b ha hb h1 h2 hns hew

theorem scan_bracket_degree (a b : NumLit) (ha : a.wf) (hb : b.wf) (h1 h2 : Char)
    (hns : isNSCh h1 = true) (hew : isEWCh h2 = true) :
    scanMatches matchBracket (degreeInput a b h1 h2) = [] := by
  apply scan_none_of_chars matchBracket _ matchBracket_nil
  intro c t hc
  exact matchBracket_head c t (degreeInput_chars_no a b ha hb h1 h2 hns hew c hc).1

theorem scan_paren_degree (a b : NumLit) (ha : a.wf) (hb : b.wf) (h1 h2 : Char)
    (hns : isNSCh h1 = true) (hew : isEWCh h2 = true) :
    scanMatches matchParen (degreeInput a b h1 h2) = [] := by
  apply scan_none_of_chars matchParen _ matchParen_nil
  intro c t hc
  exact matchParen_head c t (degreeInput_chars_no a b ha hb h1 h2 hns hew c hc).2.1

theorem scan_gps_degree (a b : NumLit) (ha : a.wf) (hb : b.wf) (h1 h2 : Char)
    (hns : isNSCh h1 = true) (hew : isEWCh h2 = true) :
    scanMatches matchGps (degreeInput a b h1 h2) = [] := by
  apply scan_none_of_chars matchGps _ matchGps_nil
  intro c t hc
  exact matchGps_head c t (degreeInput_chars_no a b ha hb h1 h2 hns hew c hc).2.2.1

theorem scan_location_degree (a b : NumLit) (ha : a.wf) (hb : b.wf) (h1 h2 : Char)
    (hns : isNSCh h1 = true) (hew : isEWCh h2 = true) :
    scanMatches matchLocation (degreeInput a b h1 h2) = [] := by
  apply scan_none_of_chars matchLocation _ matchLocation_nil
  intro c t hc
  exact matchLocation_head c t (degreeInput_chars_no a b ha hb h1 h2 hns hew c hc).2.2.2

theorem extract_degree (a b : NumLit) (ha : a.wf) (hb : b.wf) (h1 h2 : Char)
    (hns : isNSCh h1 = true) (hew : isEWCh h2 = true)
    (hv : isValidCoordinate (degLat a h1) (degLng b h2) = true) :
    extractCoordinates (degreeInput a b h1 h2) =
      [⟨degLat a h1, degLng b h2, degreeInput a b h1 h2⟩] := by
  rw [extractCoordinates]
  have hall : allMatches (degreeInput a b h1 h2) =
      [⟨degreeInput a b h1 h2, .four a.core h1 b.core h2, []⟩] := by
    rw [allMatches, coordinatePatterns]
    simp only [List.map_cons, List.map_nil]
    rw [scan_bracket_degree a b ha hb h1 h2 hns hew, scan_paren_degree a b ha hb h1 h2 hns hew,
        scan_bare_degree a b ha hb h1 h2 hns hew, scan_degree_degree a b ha hb h1 h2 hns hew,
        scan_gps_degree a b ha hb h1 h2 hns hew, scan_location_degree a b ha hb h1 h2 hns hew]
    simp
  rw [hall]
  rw [dedup_cons_new ⟨degreeInput a b h1 h2, .four a.core h1 b.core h2, []⟩ [] []
    (by simp) hv]
  rw [dedup_nil]
  rfl

set_option maxHeartbeats 1000000 in
/-- Counterexample to C1 as stated: for a bracketed input the bare pattern
also matches the inner text, so two Coordinates are returned, not one. -/
theorem c1_not_single :
    extractCoordinates (str "[10, 20]") =
      [⟨⟨10, 0⟩, ⟨20, 0⟩, str "[10, 20]"⟩, ⟨⟨10, 0⟩, ⟨20, 0⟩, str "10, 20"⟩] := by decide

/-- C1 (amended): for well-formed in-range literals rendered in the six
shapes, extraction returns the parsed values with `raw` equal to the matched
substring; the bare and degree shapes yield exactly one Coordinate whose raw
is the whole input, while the bracketed, parenthesized, `GPS:` and
`Location:` shapes yield exactly two — the full match and the inner bare
match, with equal numeric values but distinct raws (whole match first for
bracketed and parenthesized, inner bare match first for `GPS:` and
`Location:`).  The parsed `DecNum`s denote exactly the literals' values. -/
theorem c1_shapes_amended (a b : NumLit) (h1 h2 : Char) (ha : a.wf) (hb : b.wf)
    (hns : isNSCh h1 = true) (hew : isEWCh h2 = true)
    (hv : isValidCoordinate (parseNum a.render) (parseNum b.render) = true)
    (hvd : isValidCoordinate (degLat a h1) (degLng b h2) = true) :
    ((parseNum a.render).val = a.value ∧ (parseNum b.render).val = b.value ∧
      (degLat a h1).val = (if h1.toUpper = 'S' then -a.mag else a.mag) ∧
      (degLng b h2).val = (if h2.toUpper = 'W' then -b.mag else b.mag)) ∧
    extractCoordinates (bareInput a b) =
      [⟨parseNum a.render, parseNum b.render, bareInput a b⟩] ∧
    extractCoordinates (bracketInput a b) =
      [⟨parseNum a.render, parseNum b.render, bracketInput a b⟩,
       ⟨parseNum a.render, parseNum b.render, bareInput a b⟩] ∧
    extractCoordinates (parenInput a b) =
      [⟨parseNum a.render, parseNum b.render, parenInput a b⟩,
       ⟨parseNum a.render, parseNum b.render, bareInput a b⟩] ∧
    extractCoordinates (gpsInput a b) =
      [⟨parseNum a.render, parseNum b.render, bareInput a b⟩,
       ⟨parseNum a.render, parseNum b.render, gpsInput a b⟩] ∧
    extractCoordinates (locationInput a b) =
      [⟨parseNum a.render, parseNum b.render, bareInput a b⟩,
       ⟨parseNum a.render, parseNum b.render, locationInput a b⟩] ∧
    extractCoordinates (degreeInput a b h1 h2) =
      [⟨degLat a h1, degLng b h2, degreeInput a b h1 h2⟩] :=
  ⟨⟨parseNum_render_val a ha, parseNum_render_val b hb, degLat_val a h1 ha,
    degLng_val b h2 hb⟩,
   extract_bare a b ha hb hv, extract_bracket a b ha hb hv, extract_paren a b ha hb hv,
   extract_gps a b ha hb hv, extract_location a b ha hb hv,
   extract_degree a b ha hb h1 h2 hns hew hvd⟩

set_option maxHeartbeats 1000000 in
/-- Witness for the amended C1 at the literals `10.5` and `-20` (degree
shape at `10.5°S, 20°W`). -/
theorem c1_shapes_amended_witness :
    (⟨false, str "10", true, str "5"⟩ : NumLit).wf ∧
    extractCoordinates (bracketInput ⟨false, str "10", true, str "5"⟩
        ⟨true, str "20", false, str ""⟩) =
      [⟨parseNum (NumLit.render ⟨false, str "10", true, str "5"⟩),
        parseNum (NumLit.render ⟨true, str "20", false, str ""⟩),
        bracketInput ⟨false, str "10", true, str "5"⟩ ⟨true, str "20", false, str ""⟩⟩,
       ⟨parseNum (NumLit.render ⟨false, str "10", true, str "5"⟩),
        parseNum (NumLit.render ⟨true, str "20", false, str ""⟩),
        bareInput ⟨false, str "10", true, str "5"⟩ ⟨true, str "20", false, str ""⟩⟩] ∧
    extractCoordinates (degreeInput ⟨false, str "10", true, str "5"⟩
        ⟨true, str "20", false, str ""⟩ 'S' 'W') =
      [⟨degLat ⟨false, str "10", true, str "5"⟩ 'S',
        degLng ⟨true, str "20", false, str ""⟩ 'W',
        degreeInput ⟨false, str "10", true, str "5"⟩ ⟨true, str "20", false, str ""⟩
          'S' 'W'⟩] :=
  ⟨⟨by decide, by decide, by decide, by decide⟩,
   (c1_shapes_amended ⟨false, str "10", true, str "5"⟩ ⟨true, str "20", false, str ""⟩
     'S' 'W' ⟨by decide, by decide, by decide, by decide⟩
     ⟨by decide, by decide, by decide, by decide⟩
     (by decide) (by decide) (by decide) (by decide)).2.2.1,
   (c1_shapes_amended ⟨false, str "10", true, str "5"⟩ ⟨true, str "20", false, str ""⟩
     'S' 'W' ⟨by decide, by decide, by decide, by decide⟩
     ⟨by decide, by decide, by decide, by decide⟩
     (by decide) (by decide) (by decide) (by decide)).2.2.2.2.2.2⟩
